import Mathlib

/-
  Verification of the asynchronous-connector core of the repository
  (src/brynet/net/Connector.cpp), of SSLHelper::initSSL
  (src/brynet/net/SSLHelper.cpp), and of the WebBinaryProxy example
  (examples/WebBinaryProxy.cpp), against the repository specification.

  The embedding is shallow: the worker's mutable containers become pure
  data (association lists ordered by key, mirroring std::map / std::set
  iteration order), OS interactions (socket creation, connect results,
  poll readiness, SO_ERROR) become explicit environment records, and
  user callbacks become events recorded in a trace.  Callback objects
  are modelled as Option Nat: some r names the request whose callback
  pair this is, none models a null std::function (the code guards every
  invocation with a nullptr check).
-/

namespace Brynet

/-- Observable effects of the connector worker: invoking a request's
success callback (carrying the connected fd), invoking its failure
callback, or closing a socket. -/
inductive CEvent where
  | success (req : Nat) (fd : Nat)
  | failure (req : Nat)
  | closed (fd : Nat)
deriving DecidableEq, Repr

/-- ConnectorWorkInfo::ConnectingInfo (Connector.cpp:85-96): the record
kept per in-flight non-blocking connect. -/
structure ConnectingInfo where
  startConnectTime : Nat
  timeout : Nat
  successCB : Option Nat
  failedCB : Option Nat
deriving DecidableEq, Repr

/-- The connector worker's state (Connector.cpp:98-109): the map of
in-flight attempts keyed by fd, the companion fd set, and the fds
registered for Write interest in the readiness set. -/
structure ConnectorWorkInfo where
  mConnectingInfos : List (Nat × ConnectingInfo)
  mConnectingFds : List Nat
  mFDSet : List Nat
deriving DecidableEq, Repr

/-- A freshly constructed worker: all containers empty. -/
def initialWork : ConnectorWorkInfo := ⟨[], [], []⟩

/-- std::set insertion (ascending order, no-op when present). -/
def setInsert (fd : Nat) : List Nat → List Nat
  | [] => [fd]
  | x :: xs =>
    if fd < x then fd :: x :: xs
    else if fd = x then x :: xs
    else x :: setInsert fd xs

/-- std::set / fd-set erase. -/
def setErase (fd : Nat) (l : List Nat) : List Nat :=
  l.filter (fun x => x != fd)

/-- std::map operator[] assignment (insert in key order, replacing any
entry with the same key). -/
def mapInsert (fd : Nat) (ci : ConnectingInfo) :
    List (Nat × ConnectingInfo) → List (Nat × ConnectingInfo)
  | [] => [(fd, ci)]
  | p :: ps =>
    if fd < p.1 then (fd, ci) :: p :: ps
    else if fd = p.1 then (fd, ci) :: ps
    else p :: mapInsert fd ci ps

/-- std::map::find. -/
def mapLookup (fd : Nat) : List (Nat × ConnectingInfo) → Option ConnectingInfo
  | [] => none
  | p :: ps => if p.1 = fd then some p.2 else mapLookup fd ps

/-- std::map::erase by key. -/
def mapErase (fd : Nat) (l : List (Nat × ConnectingInfo)) :
    List (Nat × ConnectingInfo) :=
  l.filter (fun p => p.1 != fd)

/-- ox_fdset_check after a poll: the fd reports Write-ready.  Readiness
is only ever reported for fds registered in the set. -/
def fdsetCheck (fdset : List Nat) (ready : Nat → Bool) (fd : Nat) : Bool :=
  fdset.contains fd && ready fd

/-- The result of ox_fdset_poll: how many registered fds are ready. -/
def pollCount (fdset : List Nat) (ready : Nat → Bool) : Nat :=
  (fdset.filter ready).length

/-- ConnectorWorkInfo::isConnectSuccess (Connector.cpp:119-134): the fd
must report Write-ready, getsockopt(SO_ERROR) must succeed (soError fd =
none models getsockopt returning -1), and the error must be 0. -/
def isConnectSuccess (s : ConnectorWorkInfo) (ready : Nat → Bool)
    (soError : Nat → Option Nat) (clientfd : Nat) : Bool :=
  if !(fdsetCheck s.mFDSet ready clientfd) then false
  else
    match soError clientfd with
    | none => false
    | some err => err == 0

/-- Events produced for one ready fd in checkConnectStatus
(Connector.cpp:169-183).  A TcpSocket wrapping the fd is created before
the branch; on the success path it is moved into the callback, otherwise
it is destroyed at the end of the iteration, closing the fd. -/
def ccsEvents (success_fds : List Nat) (fd : Nat) (ci : ConnectingInfo) :
    List CEvent :=
  if success_fds.contains fd then
    match ci.successCB with
    | some cb => [CEvent.success cb fd]
    | none => [CEvent.closed fd]
  else
    (match ci.failedCB with
     | some cb => [CEvent.failure cb]
     | none => []) ++ [CEvent.closed fd]

/-- The body of the second loop of checkConnectStatus
(Connector.cpp:158-186): deregister the fd, drop it from the connecting
set, look its entry up, fire the appropriate callback, erase the entry. -/
def ccsBody (success_fds : List Nat)
    (acc : ConnectorWorkInfo × List CEvent) (fd : Nat) :
    ConnectorWorkInfo × List CEvent :=
  let st1 : ConnectorWorkInfo :=
    { acc.1 with
      mFDSet := setErase fd acc.1.mFDSet,
      mConnectingFds := setErase fd acc.1.mConnectingFds }
  match mapLookup fd st1.mConnectingInfos with
  | none => (st1, acc.2)
  | some ci =>
      ({ st1 with mConnectingInfos := mapErase fd st1.mConnectingInfos },
       acc.2 ++ ccsEvents success_fds fd ci)

/-- ConnectorWorkInfo::checkConnectStatus (Connector.cpp:136-187).
ready is the readiness snapshot delivered by ox_fdset_poll; the early
return mirrors the poll() <= 0 guard.  total_fds and success_fds are
computed from the pre-state, exactly as in the source. -/
def checkConnectStatus (s : ConnectorWorkInfo) (ready : Nat → Bool)
    (soError : Nat → Option Nat) : ConnectorWorkInfo × List CEvent :=
  if pollCount s.mFDSet ready = 0 then (s, [])
  else
    let total_fds := s.mConnectingFds.filter (fun v => fdsetCheck s.mFDSet ready v)
    let success_fds := total_fds.filter (fun v => isConnectSuccess s ready soError v)
    total_fds.foldl (ccsBody success_fds) (s, [])

/-- Events of the failure callback guarded by the nullptr check. -/
def failedCBEvents (cb : Option Nat) : List CEvent :=
  match cb with
  | some r => [CEvent.failure r]
  | none => []

/-- Events of the success callback guarded by the nullptr check. -/
def successCBEvents (cb : Option Nat) (fd : Nat) : List CEvent :=
  match cb with
  | some r => [CEvent.success r fd]
  | none => []

/-- Shared loop body of causeAllFailed (Connector.cpp:218-233): drop the
entry from every container, close its socket, fire its failure
callback. -/
def cafBody (acc : ConnectorWorkInfo × List CEvent)
    (p : Nat × ConnectingInfo) : ConnectorWorkInfo × List CEvent :=
  ({ mConnectingInfos := mapErase p.1 acc.1.mConnectingInfos,
     mConnectingFds := setErase p.1 acc.1.mConnectingFds,
     mFDSet := setErase p.1 acc.1.mFDSet },
   acc.2 ++ CEvent.closed p.1 :: failedCBEvents p.2.failedCB)

/-- Loop body of checkTimeout (Connector.cpp:191-213): entries whose
elapsed time is still below their timeout are skipped, the rest are
handled exactly as in causeAllFailed. -/
def ctBody (now : Nat) (acc : ConnectorWorkInfo × List CEvent)
    (p : Nat × ConnectingInfo) : ConnectorWorkInfo × List CEvent :=
  if now - p.2.startConnectTime < p.2.timeout then acc
  else cafBody acc p

/-- ConnectorWorkInfo::checkTimeout (Connector.cpp:189-214). -/
def checkTimeout (s : ConnectorWorkInfo) (now : Nat) :
    ConnectorWorkInfo × List CEvent :=
  s.mConnectingInfos.foldl (ctBody now) (s, [])

/-- ConnectorWorkInfo::causeAllFailed (Connector.cpp:216-234). -/
def causeAllFailed (s : ConnectorWorkInfo) :
    ConnectorWorkInfo × List CEvent :=
  s.mConnectingInfos.foldl cafBody (s, [])

/-- AsyncConnectAddr (Connector.cpp:21-68): one queued connect request.
timeout is in nanoseconds. -/
structure AsyncConnectAddr where
  ip : String
  port : Nat
  timeout : Nat
  successCB : Option Nat
  failedCB : Option Nat
deriving DecidableEq, Repr

/-- Outcome of the non-blocking connect(2) call as observed through its
return value and sErrno (Connector.cpp:262-268). -/
inductive ConnectOutcome where
  | connected
  | inProgress
  | otherError
deriving DecidableEq, Repr

/-- OS behaviour during one processConnect call: the fd handed out by
SocketCreate (none models SOCKET_ERROR), the connect outcome, and the
current steady-clock reading. -/
structure ProcEnv where
  createdFd : Option Nat
  connectResult : ConnectOutcome
  now : Nat

/-- Dotted-quad parse performed by inet_pton(AF_INET, _) on the request's
ip literal, written over the character list so it evaluates by kernel
reduction. -/
def splitDots : List Char → List (List Char)
  | [] => [[]]
  | c :: cs =>
    if c = '.' then [] :: splitDots cs
    else
      match splitDots cs with
      | [] => [[c]]
      | g :: gs => (c :: g) :: gs

/-- One decimal octet: 1 to 3 digits, value at most 255. -/
def octetVal (cs : List Char) : Option Nat :=
  if cs.length = 0 ∨ 3 < cs.length then none
  else if cs.all (fun c => c.isDigit) then
    let n := cs.foldl (fun a c => a * 10 + (c.toNat - 48)) 0
    if n ≤ 255 then some n else none
  else none

/-- inet_pton(AF_INET, s, _): some quad on a valid numeric IPv4 literal,
none otherwise. -/
def inet_pton4 (s : String) : Option (Nat × Nat × Nat × Nat) :=
  match (splitDots s.data).map octetVal with
  | [some a, some b, some c, some d] => some (a, b, c, d)
  | _ => none

/-- ConnectorWorkInfo::processConnect (Connector.cpp:236-297).  Note that
the source calls inet_pton at line 259 but never checks its return
value, so the parse result is bound and discarded here exactly as the
control flow of the source discards it: the connect attempt proceeds
regardless of whether the ip literal was valid. -/
def processConnect (s : ConnectorWorkInfo) (addr : AsyncConnectAddr)
    (env : ProcEnv) : ConnectorWorkInfo × List CEvent :=
  let _parsedAddr := inet_pton4 addr.ip
  match env.createdFd with
  | none => (s, failedCBEvents addr.failedCB)
  | some clientfd =>
    match env.connectResult with
    | ConnectOutcome.connected => (s, successCBEvents addr.successCB clientfd)
    | ConnectOutcome.otherError =>
        (s, CEvent.closed clientfd :: failedCBEvents addr.failedCB)
    | ConnectOutcome.inProgress =>
        let ci : ConnectingInfo :=
          { startConnectTime := env.now, timeout := addr.timeout,
            successCB := addr.successCB, failedCB := addr.failedCB }
        ({ mConnectingInfos := mapInsert clientfd ci s.mConnectingInfos,
           mConnectingFds := setInsert clientfd s.mConnectingFds,
           mFDSet := setInsert clientfd s.mFDSet }, [])

/-- OS behaviour during one worker iteration: the readiness snapshot of
the poll, the SO_ERROR oracle, and the steady-clock reading used by
checkTimeout. -/
structure LoopEnv where
  ready : Nat → Bool
  soError : Nat → Option Nat
  now : Nat

/-- runOnceCheckConnect (Connector.cpp:309-315) without the async-proc
drain (queued processConnect calls are separate steps of the worker
run): write-readiness processing first, then the deadline scan. -/
def runOnceCheckConnect (s : ConnectorWorkInfo) (env : LoopEnv) :
    ConnectorWorkInfo × List CEvent :=
  let r1 := checkConnectStatus s env.ready env.soError
  let r2 := checkTimeout r1.1 env.now
  (r2.1, r1.2 ++ r2.2)

/-- One step of the connector worker thread: executing a queued
processConnect, one readiness-plus-timeout iteration, or the final
causeAllFailed run after the loop exits (Connector.cpp:338-345). -/
inductive WStep where
  | process (addr : AsyncConnectAddr) (env : ProcEnv)
  | runOnce (env : LoopEnv)
  | shutdown

/-- Effect of one worker step on the state, with the events it emits. -/
def stepRun (s : ConnectorWorkInfo) : WStep → ConnectorWorkInfo × List CEvent
  | WStep.process addr env => processConnect s addr env
  | WStep.runOnce env => runOnceCheckConnect s env
  | WStep.shutdown => causeAllFailed s

/-- A whole worker run: the final state and the concatenated trace. -/
def runSteps (s : ConnectorWorkInfo) : List WStep → ConnectorWorkInfo × List CEvent
  | [] => (s, [])
  | st :: rest =>
    let r := stepRun s st
    let rr := runSteps r.1 rest
    (rr.1, r.2 ++ rr.2)

/-- Environment well-formedness of a step: an fd handed out by
SocketCreate is a fresh descriptor, hence not the key of any in-flight
attempt (in-flight fds are open, so the OS cannot reissue them). -/
def stepFresh (s : ConnectorWorkInfo) : WStep → Bool
  | WStep.process _ env =>
    match env.createdFd with
    | none => true
    | some fd => !(s.mConnectingInfos.any (fun p => p.1 == fd))
  | _ => true

/-- Environment well-formedness of a whole run. -/
def freshRun (s : ConnectorWorkInfo) : List WStep → Bool
  | [] => true
  | st :: rest => stepFresh s st && freshRun (stepRun s st).1 rest

/-- The step does not mention request r's callbacks (other requests have
their own callback pair). -/
def stepAvoids (r : Nat) : WStep → Bool
  | WStep.process addr _ => !(addr.successCB == some r) && !(addr.failedCB == some r)
  | _ => true

/-- The event is an invocation of request r's success callback. -/
def isSuccessFor (r : Nat) : CEvent → Bool
  | CEvent.success req _ => req == r
  | _ => false

/-- The event is an invocation of request r's failure callback. -/
def isFailureFor (r : Nat) : CEvent → Bool
  | CEvent.failure req => req == r
  | _ => false

/-- The event is a callback invocation of request r. -/
def evFor (r : Nat) (e : CEvent) : Bool :=
  isSuccessFor r e || isFailureFor r e

/-- The sub-trace of callback invocations belonging to request r. -/
def evFilter (r : Nat) (evs : List CEvent) : List CEvent :=
  evs.filter (evFor r)

/-- The entry references request r's callback pair. -/
def refsReq (r : Nat) (ci : ConnectingInfo) : Bool :=
  ci.successCB == some r || ci.failedCB == some r

/-- The in-flight entries referencing request r. -/
def reqEntriesL (r : Nat) (l : List (Nat × ConnectingInfo)) :
    List (Nat × ConnectingInfo) :=
  l.filter (fun p => refsReq r p.2)

/-- Structural well-formedness of the worker state, maintained by the
source code: keys are unique and the three containers hold the same
fds.  Stated with bounded quantifiers so it is decidable on concrete
states. -/
def WF (s : ConnectorWorkInfo) : Prop :=
  (s.mConnectingInfos.map Prod.fst).Nodup ∧
  s.mConnectingFds.Nodup ∧
  s.mFDSet.Nodup ∧
  (∀ fd ∈ s.mConnectingFds, fd ∈ s.mConnectingInfos.map Prod.fst) ∧
  (∀ fd ∈ s.mConnectingInfos.map Prod.fst, fd ∈ s.mConnectingFds) ∧
  (∀ fd ∈ s.mFDSet, fd ∈ s.mConnectingInfos.map Prod.fst) ∧
  (∀ fd ∈ s.mConnectingInfos.map Prod.fst, fd ∈ s.mFDSet)

instance (s : ConnectorWorkInfo) : Decidable (WF s) := by
  unfold WF; exact inferInstance

/- ------------------------------------------------------------------
   AsyncConnector object state (Connector.cpp:299-412).
   mThread and mIsRun are shared pointers in the source; none models a
   null pointer.  The worker containers themselves are modelled above.
   ------------------------------------------------------------------ -/

/-- The members of AsyncConnector touched by start/stop/asyncConnect. -/
structure AsyncConnector where
  mThread : Option Unit
  mIsRun : Option Bool
deriving DecidableEq, Repr

/-- AsyncConnector::AsyncConnector (Connector.cpp:299-302): no thread,
mIsRun freshly allocated holding false. -/
def AsyncConnector.construct : AsyncConnector := ⟨none, some false⟩

/-- What startWorkerThread did: started the worker, or returned early
because a worker already exists (Connector.cpp:325-328: there is no
error path in the source). -/
inductive StartOutcome where
  | started
  | ignoredAlreadyStarted
deriving DecidableEq, Repr

/-- AsyncConnector::startWorkerThread (Connector.cpp:317-346). -/
def AsyncConnector.startWorkerThread (c : AsyncConnector) :
    AsyncConnector × StartOutcome :=
  if c.mThread.isSome then (c, StartOutcome.ignoredAlreadyStarted)
  else (⟨some (), some true⟩, StartOutcome.started)

/-- AsyncConnector::stopWorkerThread (Connector.cpp:348-379): early
return when no thread exists; otherwise the worker is joined and every
member, including mIsRun, is reset to nullptr. -/
def AsyncConnector.stopWorkerThread (c : AsyncConnector) : AsyncConnector :=
  if c.mThread.isSome then ⟨none, none⟩ else c

/-- Synchronous outcome of AsyncConnector::asyncConnect
(Connector.cpp:381-412).  nullDeref marks the dereference of mIsRun
when stopWorkerThread has reset it to nullptr: undefined behaviour, not
a thrown error. -/
inductive AsyncConnectResult where
  | thrownNullCallback
  | thrownStopped
  | nullDeref
  | enqueued (addr : AsyncConnectAddr)
deriving DecidableEq, Repr

/-- AsyncConnector::asyncConnect (Connector.cpp:381-412): null-callback
check, then the running check via *mIsRun, then the request is packed
into an AsyncConnectAddr and pushed to the worker's event loop. -/
def AsyncConnector.asyncConnect (c : AsyncConnector) (ip : String)
    (port timeout : Nat) (successCB failedCB : Option Nat) :
    AsyncConnectResult :=
  if successCB.isNone || failedCB.isNone then AsyncConnectResult.thrownNullCallback
  else
    match c.mIsRun with
    | none => AsyncConnectResult.nullDeref
    | some r =>
      if !r then AsyncConnectResult.thrownStopped
      else AsyncConnectResult.enqueued ⟨ip, port, timeout, successCB, failedCB⟩

/- ------------------------------------------------------------------
   SSLHelper (src/brynet/net/SSLHelper.cpp).
   ------------------------------------------------------------------ -/

/-- The context member of SSLHelper; none models a null SSL_CTX*. -/
structure SSLHelper where
  mOpenSSLCTX : Option Nat
deriving DecidableEq, Repr

/-- OpenSSL behaviour during one initSSL call: the context handed out by
SSL_CTX_new and the success of the three load/validation steps. -/
structure SSLEnv where
  newCtx : Nat
  certChainOk : Bool
  privateKeyOk : Bool
  checkKeyOk : Bool

/-- SSLHelper::initSSL (SSLHelper.cpp:84-123): refuse when already
initialised or when a path is empty; otherwise build a context and
free-and-null it if loading the certificate chain, loading the private
key, or checking the key pair fails. -/
def SSLHelper.initSSL (h : SSLHelper) (env : SSLEnv)
    (certificate privatekey : String) : SSLHelper × Bool :=
  if h.mOpenSSLCTX.isSome then (h, false)
  else if certificate.isEmpty || privatekey.isEmpty then (h, false)
  else
    if !env.certChainOk then (⟨none⟩, false)
    else if !env.privateKeyOk then (⟨none⟩, false)
    else if !env.checkKeyOk then (⟨none⟩, false)
    else (⟨some env.newCtx⟩, true)

/- ------------------------------------------------------------------
   WebBinaryProxy example (examples/WebBinaryProxy.cpp).
   ------------------------------------------------------------------ -/

/-- The shared slots captured by the proxy's per-frontend closures: the
frontend session's user-data slot (set to 1 on enter, -1 on frontend
disconnect), the shared backend-session pointer, and the packet cache. -/
structure ProxySessionState where
  ud : Int
  shareBackendSession : Option Nat
  cachePacket : List (List Nat)
deriving DecidableEq, Repr

/-- Side effects of the proxy closures on the two sessions. -/
inductive ProxyAction where
  | postDisConnect (sid : Nat)
  | sendToBackend (sid : Nat) (p : List Nat)
deriving DecidableEq, Repr

/-- The backend-connection enter callback (WebBinaryProxy.cpp:48-79):
if the frontend already closed (user data -1), immediately disconnect
the backend session; otherwise publish the backend reference, flush the
cached packets to it in order, and clear the cache. -/
def backendEnterCallback (st : ProxySessionState) (backendSession : Nat) :
    ProxySessionState × List ProxyAction :=
  if st.ud = -1 then (st, [ProxyAction.postDisConnect backendSession])
  else
    ({ st with shareBackendSession := some backendSession, cachePacket := [] },
     st.cachePacket.map (fun p => ProxyAction.sendToBackend backendSession p))

/-- The frontend data callback (WebBinaryProxy.cpp:93-107): cache the
bytes while no backend session is published, otherwise relay them. -/
def frontDataCallback (st : ProxySessionState) (buffer : List Nat) :
    ProxySessionState × List ProxyAction :=
  match st.shareBackendSession with
  | none => ({ st with cachePacket := st.cachePacket ++ [buffer] }, [])
  | some b => (st, [ProxyAction.sendToBackend b buffer])

/-- The frontend disconnect callback (WebBinaryProxy.cpp:109-118):
disconnect the backend if present and mark the user-data slot -1. -/
def frontDisConnectCallback (st : ProxySessionState) :
    ProxySessionState × List ProxyAction :=
  ({ st with ud := -1 },
   match st.shareBackendSession with
   | some b => [ProxyAction.postDisConnect b]
   | none => [])

/- ------------------------------------------------------------------
   Helper lemmas about the container operations.
   ------------------------------------------------------------------ -/

theorem mem_setErase {x fd : Nat} {l : List Nat} :
    x ∈ setErase fd l ↔ x ∈ l ∧ x ≠ fd := by
  simp [setErase, List.mem_filter]

theorem nodup_setErase {fd : Nat} {l : List Nat} (h : l.Nodup) :
    (setErase fd l).Nodup :=
  h.filter _

theorem mem_setInsert {x fd : Nat} {l : List Nat} :
    x ∈ setInsert fd l ↔ x = fd ∨ x ∈ l := by
  induction l with
  | nil => simp [setInsert]
  | cons y ys ih =>
    simp only [setInsert]
    by_cases h1 : fd < y
    · simp [h1]
    · by_cases h2 : fd = y
      · subst h2
        rw [if_neg h1, if_pos rfl]
        simp only [List.mem_cons]
        tauto
      · simp only [if_neg h1, if_neg h2, List.mem_cons, ih]
        tauto

theorem nodup_setInsert {fd : Nat} {l : List Nat} (h : l.Nodup)
    (hfd : fd ∉ l) : (setInsert fd l).Nodup := by
  induction l with
  | nil => simp [setInsert]
  | cons y ys ih =>
    rw [List.nodup_cons] at h
    have hfdy : fd ≠ y := fun he => hfd (by rw [he]; exact List.mem_cons_self y ys)
    have hfdys : fd ∉ ys := fun hm => hfd (List.mem_cons_of_mem y hm)
    simp only [setInsert]
    by_cases h1 : fd < y
    · rw [if_pos h1]
      exact List.nodup_cons.mpr
        ⟨fun hm => (List.mem_cons.mp hm).elim hfdy hfdys,
         List.nodup_cons.mpr ⟨h.1, h.2⟩⟩
    · rw [if_neg h1, if_neg hfdy]
      exact List.nodup_cons.mpr
        ⟨fun hm => (mem_setInsert.mp hm).elim (fun h3 => hfdy h3.symm) h.1,
         ih h.2 hfdys⟩

theorem mem_mapErase {p : Nat × ConnectingInfo} {a : Nat}
    {l : List (Nat × ConnectingInfo)} :
    p ∈ mapErase a l ↔ p ∈ l ∧ p.1 ≠ a := by
  simp [mapErase, List.mem_filter]

theorem keys_mapErase {x a : Nat} {l : List (Nat × ConnectingInfo)} :
    x ∈ (mapErase a l).map Prod.fst ↔ x ∈ l.map Prod.fst ∧ x ≠ a := by
  constructor
  · intro h
    rcases List.mem_map.mp h with ⟨p, hp, hx⟩
    rcases mem_mapErase.mp hp with ⟨hpl, hne⟩
    exact ⟨List.mem_map.mpr ⟨p, hpl, hx⟩, hx ▸ hne⟩
  · rintro ⟨h, hne⟩
    rcases List.mem_map.mp h with ⟨p, hp, hx⟩
    exact List.mem_map.mpr ⟨p, mem_mapErase.mpr ⟨hp, hx ▸ hne⟩, hx⟩

theorem filter_mapErase (q : Nat × ConnectingInfo → Bool) (a : Nat)
    (l : List (Nat × ConnectingInfo)) :
    (mapErase a l).filter q = mapErase a (l.filter q) := by
  simp only [mapErase, List.filter_filter]
  congr 1
  funext p
  exact Bool.and_comm _ _

theorem mapLookup_mem {fd : Nat} {ci : ConnectingInfo}
    {l : List (Nat × ConnectingInfo)} (h : mapLookup fd l = some ci) :
    (fd, ci) ∈ l := by
  induction l with
  | nil => simp [mapLookup] at h
  | cons p ps ih =>
    by_cases h1 : p.1 = fd
    · simp only [mapLookup, if_pos h1, Option.some_inj] at h
      obtain ⟨pa, pb⟩ := p
      have h1' : pa = fd := h1
      have h' : pb = ci := h
      rw [h1', h'] at *
      exact List.mem_cons_self _ _
    · simp only [mapLookup, if_neg h1] at h
      exact List.mem_cons_of_mem p (ih h)

theorem mapLookup_eq_none {fd : Nat} {l : List (Nat × ConnectingInfo)} :
    mapLookup fd l = none ↔ fd ∉ l.map Prod.fst := by
  induction l with
  | nil => simp [mapLookup]
  | cons p ps ih =>
    simp only [mapLookup, List.map_cons, List.mem_cons]
    by_cases h1 : p.1 = fd
    · simp [h1]
    · rw [if_neg h1, ih]
      constructor
      · intro h hm
        rcases hm with hm | hm
        · exact h1 hm.symm
        · exact h hm
      · intro h hm
        exact h (Or.inr hm)

theorem mapLookup_of_mem_nodup {fd : Nat} {ci : ConnectingInfo}
    {l : List (Nat × ConnectingInfo)} (hm : (fd, ci) ∈ l)
    (hn : (l.map Prod.fst).Nodup) : mapLookup fd l = some ci := by
  induction l with
  | nil => cases hm
  | cons p ps ih =>
    rw [List.map_cons, List.nodup_cons] at hn
    rcases List.mem_cons.mp hm with h | h
    · rw [← h]; simp [mapLookup]
    · have h1 : p.1 ≠ fd := by
        intro he
        apply hn.1
        rw [he]
        exact List.mem_map.mpr ⟨(fd, ci), h, rfl⟩
      simp only [mapLookup, if_neg h1]
      exact ih h hn.2

theorem mapLookup_mapErase_ne {fd a : Nat} {l : List (Nat × ConnectingInfo)}
    (h : a ≠ fd) : mapLookup fd (mapErase a l) = mapLookup fd l := by
  induction l with
  | nil => rfl
  | cons p ps ih =>
    by_cases h1 : p.1 = a
    · have h2 : p.1 ≠ fd := by rw [h1]; exact h
      have e1 : mapErase a (p :: ps) = mapErase a ps := by
        simp [mapErase, List.filter_cons, h1]
      rw [e1, ih]
      simp [mapLookup, h2]
    · have e1 : mapErase a (p :: ps) = p :: mapErase a ps := by
        simp [mapErase, List.filter_cons, h1]
      rw [e1]
      by_cases h2 : p.1 = fd
      · simp [mapLookup, h2]
      · simp only [mapLookup, if_neg h2]
        exact ih

theorem mem_mapInsert_elim {p : Nat × ConnectingInfo} {fd : Nat}
    {ci : ConnectingInfo} {l : List (Nat × ConnectingInfo)}
    (h : p ∈ mapInsert fd ci l) : p = (fd, ci) ∨ p ∈ l := by
  induction l with
  | nil =>
    simp only [mapInsert] at h
    exact Or.inl (List.mem_singleton.mp h)
  | cons x xs ih =>
    simp only [mapInsert] at h
    by_cases h1 : fd < x.1
    · rw [if_pos h1] at h
      rcases List.mem_cons.mp h with h2 | h2
      · exact Or.inl h2
      · exact Or.inr h2
    · rw [if_neg h1] at h
      by_cases h2 : fd = x.1
      · rw [if_pos h2] at h
        rcases List.mem_cons.mp h with h3 | h3
        · exact Or.inl h3
        · exact Or.inr (List.mem_cons_of_mem x h3)
      · rw [if_neg h2] at h
        rcases List.mem_cons.mp h with h3 | h3
        · refine Or.inr ?_
          rw [h3]
          exact List.mem_cons_self x xs
        · rcases ih h3 with h4 | h4
          · exact Or.inl h4
          · exact Or.inr (List.mem_cons_of_mem x h4)

theorem mem_mapInsert_self (fd : Nat) (ci : ConnectingInfo)
    (l : List (Nat × ConnectingInfo)) : (fd, ci) ∈ mapInsert fd ci l := by
  induction l with
  | nil => exact List.mem_singleton.mpr rfl
  | cons x xs ih =>
    simp only [mapInsert]
    by_cases h1 : fd < x.1
    · rw [if_pos h1]; exact List.mem_cons_self _ _
    · rw [if_neg h1]
      by_cases h2 : fd = x.1
      · rw [if_pos h2]; exact List.mem_cons_self _ _
      · rw [if_neg h2]; exact List.mem_cons_of_mem x ih

theorem keys_mapInsert {x fd : Nat} {ci : ConnectingInfo}
    {l : List (Nat × ConnectingInfo)} :
    x ∈ (mapInsert fd ci l).map Prod.fst ↔ x = fd ∨ x ∈ l.map Prod.fst := by
  induction l with
  | nil => simp [mapInsert]
  | cons p ps ih =>
    by_cases h1 : fd < p.1
    · simp [mapInsert, h1]
    · by_cases h2 : fd = p.1
      · subst h2
        simp only [mapInsert]
        rw [if_neg h1, if_pos trivial]
        simp only [List.map_cons, List.mem_cons]
        tauto
      · simp [mapInsert, h1, h2, ih]
        tauto

theorem nodup_keys_mapInsert {fd : Nat} {ci : ConnectingInfo}
    {l : List (Nat × ConnectingInfo)} (h : (l.map Prod.fst).Nodup)
    (hfd : fd ∉ l.map Prod.fst) :
    ((mapInsert fd ci l).map Prod.fst).Nodup := by
  induction l with
  | nil => simp [mapInsert]
  | cons p ps ih =>
    rw [List.map_cons, List.nodup_cons] at h
    have hfd1 : fd ≠ p.1 := fun he => hfd (by simp [he])
    have hfd2 : fd ∉ ps.map Prod.fst := fun hm => hfd (by simp [hm])
    by_cases h1 : fd < p.1
    · simp only [mapInsert, if_pos h1, List.map_cons, List.nodup_cons]
      refine ⟨?_, h.1, h.2⟩
      simp only [List.mem_cons]
      push_neg
      exact ⟨hfd1, fun hm => hfd2 hm⟩
    · simp only [mapInsert, if_neg h1, if_neg hfd1, List.map_cons, List.nodup_cons]
      refine ⟨?_, ih h.2 hfd2⟩
      intro hm
      rcases List.mem_map.mp hm with ⟨q, hq, hqx⟩
      rcases mem_mapInsert_elim hq with h3 | h3
      · exact hfd1 (by rw [← hqx, h3])
      · exact h.1 (List.mem_map.mpr ⟨q, h3, hqx⟩)

theorem mapLookup_mapInsert_self (fd : Nat) (ci : ConnectingInfo)
    (l : List (Nat × ConnectingInfo)) :
    mapLookup fd (mapInsert fd ci l) = some ci := by
  induction l with
  | nil => simp [mapInsert, mapLookup]
  | cons p ps ih =>
    by_cases h1 : fd < p.1
    · simp [mapInsert, h1, mapLookup]
    · by_cases h2 : fd = p.1
      · simp [mapInsert, h1, h2, mapLookup]
      · have h3 : p.1 ≠ fd := fun he => h2 he.symm
        simp [mapInsert, h1, h2, mapLookup, h3, ih]

theorem filter_mapInsert_of_filter_nil {q : Nat × ConnectingInfo → Bool}
    {fd : Nat} {ci : ConnectingInfo} {l : List (Nat × ConnectingInfo)}
    (h : l.filter q = []) :
    (mapInsert fd ci l).filter q = if q (fd, ci) then [(fd, ci)] else [] := by
  induction l with
  | nil =>
    simp only [mapInsert]
    cases hq : q (fd, ci) <;> simp [List.filter_cons, hq]
  | cons p ps ih =>
    rw [List.filter_cons] at h
    have hqp : q p = false := by
      cases hq : q p
      · rfl
      · rw [hq] at h; simp at h
    rw [if_neg (by simp [hqp])] at h
    simp only [mapInsert]
    have hrest : List.filter q (p :: ps) = [] := by
      rw [List.filter_cons, if_neg (by simp [hqp])]
      exact h
    by_cases h1 : fd < p.1
    · rw [if_pos h1, List.filter_cons]
      cases hq : q (fd, ci) <;> simp [hq, hrest]
    · by_cases h2 : fd = p.1
      · rw [if_neg h1, if_pos h2, List.filter_cons]
        cases hq : q (fd, ci) <;> simp [hq, h]
      · rw [if_neg h1, if_neg h2, List.filter_cons]
        rw [if_neg (by simp [hqp])]
        exact ih h

theorem filter_mapInsert_of_not {q : Nat × ConnectingInfo → Bool}
    {fd : Nat} {ci : ConnectingInfo} {l : List (Nat × ConnectingInfo)}
    (hfd : fd ∉ l.map Prod.fst) (hq : q (fd, ci) = false) :
    (mapInsert fd ci l).filter q = l.filter q := by
  induction l with
  | nil => simp [mapInsert, List.filter, hq]
  | cons p ps ih =>
    have hfd1 : fd ≠ p.1 := fun he => hfd (by simp [he])
    have hfd2 : fd ∉ ps.map Prod.fst := fun hm => hfd (by simp [hm])
    by_cases h1 : fd < p.1
    · simp [mapInsert, h1, List.filter_cons, hq]
    · simp only [mapInsert, if_neg h1, if_neg hfd1, List.filter_cons]
      rw [ih hfd2]

theorem keys_nodup_unique {fd : Nat} {ci : ConnectingInfo}
    {l : List (Nat × ConnectingInfo)} (hn : (l.map Prod.fst).Nodup)
    (hm : (fd, ci) ∈ l) :
    ∀ p ∈ l, p.1 = fd → p = (fd, ci) := by
  intro p hp hpfd
  obtain ⟨pa, pb⟩ := p
  have hpa : pa = fd := hpfd
  subst hpa
  have h1 : mapLookup pa l = some ci := mapLookup_of_mem_nodup hm hn
  have h2 : mapLookup pa l = some pb := mapLookup_of_mem_nodup hp hn
  rw [h1] at h2
  rw [Option.some_inj.mp h2]

/- ------------------------------------------------------------------
   Helper lemmas about events.
   ------------------------------------------------------------------ -/

theorem evFilter_append (r : Nat) (l1 l2 : List CEvent) :
    evFilter r (l1 ++ l2) = evFilter r l1 ++ evFilter r l2 :=
  List.filter_append l1 l2

theorem evFilter_nil (r : Nat) : evFilter r [] = [] := rfl

theorem evFor_closed (r fd : Nat) : evFor r (CEvent.closed fd) = false := rfl

theorem evFor_success (r cb fd : Nat) :
    evFor r (CEvent.success cb fd) = (cb == r) := by
  simp [evFor, isSuccessFor, isFailureFor]

theorem evFor_failure (r cb : Nat) :
    evFor r (CEvent.failure cb) = (cb == r) := by
  simp [evFor, isSuccessFor, isFailureFor]

theorem count_split_evFor (r : Nat) (evs : List CEvent) :
    evs.countP (isSuccessFor r) + evs.countP (isFailureFor r) =
      (evFilter r evs).length := by
  induction evs with
  | nil => rfl
  | cons e es ih =>
    rw [List.countP_cons, List.countP_cons]
    unfold evFilter at ih ⊢
    rw [List.filter_cons]
    cases e with
    | success cb fd =>
      have h2 : isFailureFor r (CEvent.success cb fd) = false := rfl
      cases hb : cb == r with
      | true =>
        have h1 : isSuccessFor r (CEvent.success cb fd) = true := hb
        have h3 : evFor r (CEvent.success cb fd) = true := by
          simp [evFor, h1]
        rw [h1, h2, h3]
        simp only [if_true, if_false, List.length_cons]
        simp
        omega
      | false =>
        have h1 : isSuccessFor r (CEvent.success cb fd) = false := hb
        have h3 : evFor r (CEvent.success cb fd) = false := by
          simp [evFor, h1, h2]
        rw [h1, h2, h3]
        simp
        omega
    | failure cb =>
      have h1 : isSuccessFor r (CEvent.failure cb) = false := rfl
      cases hb : cb == r with
      | true =>
        have h2 : isFailureFor r (CEvent.failure cb) = true := hb
        have h3 : evFor r (CEvent.failure cb) = true := by
          have he : evFor r (CEvent.failure cb) =
              (isSuccessFor r (CEvent.failure cb) || isFailureFor r (CEvent.failure cb)) := rfl
          rw [he, h1, h2]
          rfl
        rw [h1, h2, h3]
        simp
        omega
      | false =>
        have h2 : isFailureFor r (CEvent.failure cb) = false := hb
        have h3 : evFor r (CEvent.failure cb) = false := by
          simp [evFor, h1, h2]
        rw [h1, h2, h3]
        simp
        omega
    | closed fd =>
      have h1 : isSuccessFor r (CEvent.closed fd) = false := rfl
      have h2 : isFailureFor r (CEvent.closed fd) = false := rfl
      have h3 : evFor r (CEvent.closed fd) = false := rfl
      rw [h1, h2, h3]
      simp
      omega

/- ------------------------------------------------------------------
   Case equations for the loop bodies.
   ------------------------------------------------------------------ -/

theorem ccsBody_eq_none {sf : List Nat} {acc : ConnectorWorkInfo × List CEvent}
    {fd : Nat} (h : mapLookup fd acc.1.mConnectingInfos = none) :
    ccsBody sf acc fd =
      ({ acc.1 with
          mFDSet := setErase fd acc.1.mFDSet,
          mConnectingFds := setErase fd acc.1.mConnectingFds }, acc.2) := by
  simp [ccsBody, h]

theorem ccsBody_eq_some {sf : List Nat} {acc : ConnectorWorkInfo × List CEvent}
    {fd : Nat} {ci : ConnectingInfo}
    (h : mapLookup fd acc.1.mConnectingInfos = some ci) :
    ccsBody sf acc fd =
      ({ mConnectingInfos := mapErase fd acc.1.mConnectingInfos,
         mConnectingFds := setErase fd acc.1.mConnectingFds,
         mFDSet := setErase fd acc.1.mFDSet },
       acc.2 ++ ccsEvents sf fd ci) := by
  simp [ccsBody, h]

theorem cafBody_eq (acc : ConnectorWorkInfo × List CEvent)
    (p : Nat × ConnectingInfo) :
    cafBody acc p =
      ({ mConnectingInfos := mapErase p.1 acc.1.mConnectingInfos,
         mConnectingFds := setErase p.1 acc.1.mConnectingFds,
         mFDSet := setErase p.1 acc.1.mFDSet },
       acc.2 ++ CEvent.closed p.1 :: failedCBEvents p.2.failedCB) := rfl

theorem ctBody_eq_keep {now : Nat} {acc : ConnectorWorkInfo × List CEvent}
    {p : Nat × ConnectingInfo}
    (h : now - p.2.startConnectTime < p.2.timeout) :
    ctBody now acc p = acc := by
  simp [ctBody, h]

theorem ctBody_eq_fail {now : Nat} {acc : ConnectorWorkInfo × List CEvent}
    {p : Nat × ConnectingInfo}
    (h : ¬(now - p.2.startConnectTime < p.2.timeout)) :
    ctBody now acc p = cafBody acc p := by
  simp [ctBody, h]

/- ------------------------------------------------------------------
   The folds only shrink the containers.
   ------------------------------------------------------------------ -/

theorem ccs_fold_infos_sub (sf : List Nat) :
    ∀ (l : List Nat) (acc : ConnectorWorkInfo × List CEvent)
      (p : Nat × ConnectingInfo),
      p ∈ (l.foldl (ccsBody sf) acc).1.mConnectingInfos →
      p ∈ acc.1.mConnectingInfos := by
  intro l
  induction l with
  | nil => intro acc p h; exact h
  | cons fd fds ih =>
    intro acc p h
    have h2 := ih (ccsBody sf acc fd) p h
    cases hl : mapLookup fd acc.1.mConnectingInfos with
    | none => rw [ccsBody_eq_none hl] at h2; exact h2
    | some ci =>
      rw [ccsBody_eq_some hl] at h2
      exact (mem_mapErase.mp h2).1

theorem ccs_fold_fds_sub (sf : List Nat) :
    ∀ (l : List Nat) (acc : ConnectorWorkInfo × List CEvent) (x : Nat),
      x ∈ (l.foldl (ccsBody sf) acc).1.mConnectingFds →
      x ∈ acc.1.mConnectingFds := by
  intro l
  induction l with
  | nil => intro acc x h; exact h
  | cons fd fds ih =>
    intro acc x h
    have h2 := ih (ccsBody sf acc fd) x h
    cases hl : mapLookup fd acc.1.mConnectingInfos with
    | none => rw [ccsBody_eq_none hl] at h2; exact (mem_setErase.mp h2).1
    | some ci => rw [ccsBody_eq_some hl] at h2; exact (mem_setErase.mp h2).1

theorem ccs_fold_fdset_sub (sf : List Nat) :
    ∀ (l : List Nat) (acc : ConnectorWorkInfo × List CEvent) (x : Nat),
      x ∈ (l.foldl (ccsBody sf) acc).1.mFDSet →
      x ∈ acc.1.mFDSet := by
  intro l
  induction l with
  | nil => intro acc x h; exact h
  | cons fd fds ih =>
    intro acc x h
    have h2 := ih (ccsBody sf acc fd) x h
    cases hl : mapLookup fd acc.1.mConnectingInfos with
    | none => rw [ccsBody_eq_none hl] at h2; exact (mem_setErase.mp h2).1
    | some ci => rw [ccsBody_eq_some hl] at h2; exact (mem_setErase.mp h2).1

theorem ct_fold_infos_sub (now : Nat) :
    ∀ (l : List (Nat × ConnectingInfo)) (acc : ConnectorWorkInfo × List CEvent)
      (p : Nat × ConnectingInfo),
      p ∈ (l.foldl (ctBody now) acc).1.mConnectingInfos →
      p ∈ acc.1.mConnectingInfos := by
  intro l
  induction l with
  | nil => intro acc p h; exact h
  | cons q qs ih =>
    intro acc p h
    have h2 := ih (ctBody now acc q) p h
    by_cases hc : now - q.2.startConnectTime < q.2.timeout
    · rw [ctBody_eq_keep hc] at h2; exact h2
    · rw [ctBody_eq_fail hc, cafBody_eq] at h2
      exact (mem_mapErase.mp h2).1

theorem ct_fold_fds_sub (now : Nat) :
    ∀ (l : List (Nat × ConnectingInfo)) (acc : ConnectorWorkInfo × List CEvent)
      (x : Nat),
      x ∈ (l.foldl (ctBody now) acc).1.mConnectingFds →
      x ∈ acc.1.mConnectingFds := by
  intro l
  induction l with
  | nil => intro acc x h; exact h
  | cons q qs ih =>
    intro acc x h
    have h2 := ih (ctBody now acc q) x h
    by_cases hc : now - q.2.startConnectTime < q.2.timeout
    · rw [ctBody_eq_keep hc] at h2; exact h2
    · rw [ctBody_eq_fail hc, cafBody_eq] at h2
      exact (mem_setErase.mp h2).1

theorem ct_fold_fdset_sub (now : Nat) :
    ∀ (l : List (Nat × ConnectingInfo)) (acc : ConnectorWorkInfo × List CEvent)
      (x : Nat),
      x ∈ (l.foldl (ctBody now) acc).1.mFDSet →
      x ∈ acc.1.mFDSet := by
  intro l
  induction l with
  | nil => intro acc x h; exact h
  | cons q qs ih =>
    intro acc x h
    have h2 := ih (ctBody now acc q) x h
    by_cases hc : now - q.2.startConnectTime < q.2.timeout
    · rw [ctBody_eq_keep hc] at h2; exact h2
    · rw [ctBody_eq_fail hc, cafBody_eq] at h2
      exact (mem_setErase.mp h2).1

theorem caf_fold_infos_sub :
    ∀ (l : List (Nat × ConnectingInfo)) (acc : ConnectorWorkInfo × List CEvent)
      (p : Nat × ConnectingInfo),
      p ∈ (l.foldl cafBody acc).1.mConnectingInfos →
      p ∈ acc.1.mConnectingInfos := by
  intro l
  induction l with
  | nil => intro acc p h; exact h
  | cons q qs ih =>
    intro acc p h
    have h2 := ih (cafBody acc q) p h
    rw [cafBody_eq] at h2
    exact (mem_mapErase.mp h2).1

/- ------------------------------------------------------------------
   The folds only append to the event trace.
   ------------------------------------------------------------------ -/

theorem ccs_fold_ev_suffix (sf : List Nat) :
    ∀ (l : List Nat) (acc : ConnectorWorkInfo × List CEvent),
      ∃ t, (l.foldl (ccsBody sf) acc).2 = acc.2 ++ t := by
  intro l
  induction l with
  | nil => intro acc; exact ⟨[], by simp⟩
  | cons fd fds ih =>
    intro acc
    rcases ih (ccsBody sf acc fd) with ⟨t, ht⟩
    cases hl : mapLookup fd acc.1.mConnectingInfos with
    | none =>
      refine ⟨t, ?_⟩
      rw [List.foldl_cons, ht, ccsBody_eq_none hl]
    | some ci =>
      refine ⟨ccsEvents sf fd ci ++ t, ?_⟩
      rw [List.foldl_cons, ht, ccsBody_eq_some hl]
      simp [List.append_assoc]

theorem ct_fold_ev_suffix (now : Nat) :
    ∀ (l : List (Nat × ConnectingInfo)) (acc : ConnectorWorkInfo × List CEvent),
      ∃ t, (l.foldl (ctBody now) acc).2 = acc.2 ++ t := by
  intro l
  induction l with
  | nil => intro acc; exact ⟨[], by simp⟩
  | cons q qs ih =>
    intro acc
    rcases ih (ctBody now acc q) with ⟨t, ht⟩
    by_cases hc : now - q.2.startConnectTime < q.2.timeout
    · refine ⟨t, ?_⟩
      rw [List.foldl_cons, ht, ctBody_eq_keep hc]
    · refine ⟨CEvent.closed q.1 :: failedCBEvents q.2.failedCB ++ t, ?_⟩
      rw [List.foldl_cons, ht, ctBody_eq_fail hc, cafBody_eq]
      simp [List.append_assoc]

theorem caf_fold_ev_suffix :
    ∀ (l : List (Nat × ConnectingInfo)) (acc : ConnectorWorkInfo × List CEvent),
      ∃ t, (l.foldl cafBody acc).2 = acc.2 ++ t := by
  intro l
  induction l with
  | nil => intro acc; exact ⟨[], by simp⟩
  | cons q qs ih =>
    intro acc
    rcases ih (cafBody acc q) with ⟨t, ht⟩
    refine ⟨CEvent.closed q.1 :: failedCBEvents q.2.failedCB ++ t, ?_⟩
    rw [List.foldl_cons, ht, cafBody_eq]
    simp [List.append_assoc]

/- ------------------------------------------------------------------
   Events emitted for entries that do not reference request r.
   ------------------------------------------------------------------ -/

theorem refsReq_false_elim {r : Nat} {ci : ConnectingInfo}
    (h : refsReq r ci = false) :
    (ci.successCB == some r) = false ∧ (ci.failedCB == some r) = false := by
  unfold refsReq at h
  exact Bool.or_eq_false_iff.mp h

theorem evFilter_failedCBEvents_noref {r : Nat} {cb : Option Nat}
    (h : (cb == some r) = false) : evFilter r (failedCBEvents cb) = [] := by
  cases cb with
  | none => rfl
  | some c =>
    have hc : (c == r) = false := by
      cases hcc : c == r
      · rfl
      · exfalso
        rw [show c = r from by exact beq_iff_eq.mp hcc] at h
        simp at h
    simp [failedCBEvents, evFilter, List.filter_cons, evFor_failure, hc]

theorem evFilter_successCBEvents_noref {r fd : Nat} {cb : Option Nat}
    (h : (cb == some r) = false) : evFilter r (successCBEvents cb fd) = [] := by
  cases cb with
  | none => rfl
  | some c =>
    have hc : (c == r) = false := by
      cases hcc : c == r
      · rfl
      · exfalso
        rw [show c = r from by exact beq_iff_eq.mp hcc] at h
        simp at h
    simp [successCBEvents, evFilter, List.filter_cons, evFor_success, hc]

theorem evFilter_ccsEvents_noref {r fd : Nat} {sf : List Nat}
    {ci : ConnectingInfo} (h : refsReq r ci = false) :
    evFilter r (ccsEvents sf fd ci) = [] := by
  rcases refsReq_false_elim h with ⟨hs, hf⟩
  unfold ccsEvents
  by_cases hc : sf.contains fd
  · rw [if_pos hc]
    cases hsc : ci.successCB with
    | none => rfl
    | some c =>
      rw [hsc] at hs
      exact @evFilter_successCBEvents_noref r fd (some c) hs
  · rw [if_neg hc]
    rw [evFilter_append]
    cases hfc : ci.failedCB with
    | none => rfl
    | some c =>
      rw [hfc] at hf
      have h2 := @evFilter_failedCBEvents_noref r (some c) hf
      simp only [List.append_eq_nil]
      exact ⟨h2, rfl⟩

theorem evFilter_cafEvents_noref {r : Nat} {p : Nat × ConnectingInfo}
    (h : refsReq r p.2 = false) :
    evFilter r (CEvent.closed p.1 :: failedCBEvents p.2.failedCB) = [] := by
  rcases refsReq_false_elim h with ⟨_, hf⟩
  have e1 : evFilter r (CEvent.closed p.1 :: failedCBEvents p.2.failedCB) =
      evFilter r [CEvent.closed p.1] ++ evFilter r (failedCBEvents p.2.failedCB) := by
    rw [← evFilter_append]
    rfl
  rw [e1, evFilter_failedCBEvents_noref hf]
  rfl

/- ------------------------------------------------------------------
   No-reference preservation through each worker operation.
   ------------------------------------------------------------------ -/

theorem ccs_fold_noref (r : Nat) (sf : List Nat) :
    ∀ (l : List Nat) (acc : ConnectorWorkInfo × List CEvent),
      (∀ p ∈ acc.1.mConnectingInfos, refsReq r p.2 = false) →
      (∀ p ∈ (l.foldl (ccsBody sf) acc).1.mConnectingInfos, refsReq r p.2 = false) ∧
      evFilter r (l.foldl (ccsBody sf) acc).2 = evFilter r acc.2 := by
  intro l
  induction l with
  | nil => intro acc h; exact ⟨h, rfl⟩
  | cons fd fds ih =>
    intro acc h
    cases hl : mapLookup fd acc.1.mConnectingInfos with
    | none =>
      have hstep : ∀ p ∈ (ccsBody sf acc fd).1.mConnectingInfos,
          refsReq r p.2 = false := by
        rw [ccsBody_eq_none hl]; exact h
      have := ih (ccsBody sf acc fd) hstep
      refine ⟨this.1, ?_⟩
      rw [List.foldl_cons] at *
      rw [this.2, ccsBody_eq_none hl]
    | some ci =>
      have hci : refsReq r ci = false := h _ (mapLookup_mem hl)
      have hstep : ∀ p ∈ (ccsBody sf acc fd).1.mConnectingInfos,
          refsReq r p.2 = false := by
        rw [ccsBody_eq_some hl]
        intro p hp
        exact h p (mem_mapErase.mp hp).1
      have := ih (ccsBody sf acc fd) hstep
      refine ⟨this.1, ?_⟩
      rw [List.foldl_cons] at *
      rw [this.2, ccsBody_eq_some hl]
      simp only [evFilter_append]
      rw [evFilter_ccsEvents_noref hci]
      simp [evFilter]

theorem ct_fold_ev_noref (r now : Nat) :
    ∀ (l : List (Nat × ConnectingInfo)) (acc : ConnectorWorkInfo × List CEvent),
      (∀ p ∈ l, refsReq r p.2 = false) →
      evFilter r (l.foldl (ctBody now) acc).2 = evFilter r acc.2 := by
  intro l
  induction l with
  | nil => intro acc _; rfl
  | cons q qs ih =>
    intro acc h
    have hq : refsReq r q.2 = false := h q (List.mem_cons_self q qs)
    have hqs : ∀ p ∈ qs, refsReq r p.2 = false :=
      fun p hp => h p (List.mem_cons_of_mem q hp)
    rw [List.foldl_cons]
    rw [ih (ctBody now acc q) hqs]
    by_cases hc : now - q.2.startConnectTime < q.2.timeout
    · rw [ctBody_eq_keep hc]
    · rw [ctBody_eq_fail hc, cafBody_eq]
      simp only [evFilter_append]
      rw [evFilter_cafEvents_noref hq]
      simp [evFilter]

theorem caf_fold_ev_noref (r : Nat) :
    ∀ (l : List (Nat × ConnectingInfo)) (acc : ConnectorWorkInfo × List CEvent),
      (∀ p ∈ l, refsReq r p.2 = false) →
      evFilter r (l.foldl cafBody acc).2 = evFilter r acc.2 := by
  intro l
  induction l with
  | nil => intro acc _; rfl
  | cons q qs ih =>
    intro acc h
    have hq : refsReq r q.2 = false := h q (List.mem_cons_self q qs)
    have hqs : ∀ p ∈ qs, refsReq r p.2 = false :=
      fun p hp => h p (List.mem_cons_of_mem q hp)
    rw [List.foldl_cons]
    rw [ih (cafBody acc q) hqs]
    rw [cafBody_eq]
    simp only [evFilter_append]
    rw [evFilter_cafEvents_noref hq]
    simp [evFilter]

theorem checkConnectStatus_noref (r : Nat) (s : ConnectorWorkInfo)
    (re : Nat → Bool) (so : Nat → Option Nat)
    (h : ∀ p ∈ s.mConnectingInfos, refsReq r p.2 = false) :
    (∀ p ∈ (checkConnectStatus s re so).1.mConnectingInfos,
      refsReq r p.2 = false) ∧
    evFilter r (checkConnectStatus s re so).2 = [] := by
  unfold checkConnectStatus
  by_cases hg : pollCount s.mFDSet re = 0
  · rw [if_pos hg]; exact ⟨h, rfl⟩
  · rw [if_neg hg]
    have := ccs_fold_noref r
      ((s.mConnectingFds.filter (fun v => fdsetCheck s.mFDSet re v)).filter
        (fun v => isConnectSuccess s re so v))
      (s.mConnectingFds.filter (fun v => fdsetCheck s.mFDSet re v)) (s, []) h
    exact this

theorem checkTimeout_noref (r : Nat) (s : ConnectorWorkInfo) (now : Nat)
    (h : ∀ p ∈ s.mConnectingInfos, refsReq r p.2 = false) :
    (∀ p ∈ (checkTimeout s now).1.mConnectingInfos, refsReq r p.2 = false) ∧
    evFilter r (checkTimeout s now).2 = [] := by
  constructor
  · intro p hp
    exact h p (ct_fold_infos_sub now s.mConnectingInfos (s, []) p hp)
  · exact ct_fold_ev_noref r now s.mConnectingInfos (s, []) h

theorem causeAllFailed_noref (r : Nat) (s : ConnectorWorkInfo)
    (h : ∀ p ∈ s.mConnectingInfos, refsReq r p.2 = false) :
    (∀ p ∈ (causeAllFailed s).1.mConnectingInfos, refsReq r p.2 = false) ∧
    evFilter r (causeAllFailed s).2 = [] := by
  constructor
  · intro p hp
    exact h p (caf_fold_infos_sub s.mConnectingInfos (s, []) p hp)
  · exact caf_fold_ev_noref r s.mConnectingInfos (s, []) h

theorem stepAvoids_elim {r : Nat} {addr : AsyncConnectAddr} {env : ProcEnv}
    (h : stepAvoids r (WStep.process addr env) = true) :
    (addr.successCB == some r) = false ∧ (addr.failedCB == some r) = false := by
  unfold stepAvoids at h
  rcases Bool.and_eq_true_iff.mp h with ⟨h1, h2⟩
  constructor
  · cases hc : addr.successCB == some r
    · rfl
    · rw [hc] at h1; cases h1
  · cases hc : addr.failedCB == some r
    · rfl
    · rw [hc] at h2; cases h2

theorem processConnect_noref (r : Nat) (s : ConnectorWorkInfo)
    (addr : AsyncConnectAddr) (env : ProcEnv)
    (h : ∀ p ∈ s.mConnectingInfos, refsReq r p.2 = false)
    (ha : stepAvoids r (WStep.process addr env) = true) :
    (∀ p ∈ (processConnect s addr env).1.mConnectingInfos,
      refsReq r p.2 = false) ∧
    evFilter r (processConnect s addr env).2 = [] := by
  rcases stepAvoids_elim ha with ⟨hs, hf⟩
  unfold processConnect
  cases env.createdFd with
  | none => exact ⟨h, evFilter_failedCBEvents_noref hf⟩
  | some clientfd =>
    cases env.connectResult with
    | connected => exact ⟨h, evFilter_successCBEvents_noref hs⟩
    | otherError =>
      refine ⟨h, ?_⟩
      have e1 : evFilter r (CEvent.closed clientfd :: failedCBEvents addr.failedCB) =
          evFilter r [CEvent.closed clientfd] ++ evFilter r (failedCBEvents addr.failedCB) := by
        rw [← evFilter_append]; rfl
      rw [e1, evFilter_failedCBEvents_noref hf]
      rfl
    | inProgress =>
      refine ⟨?_, rfl⟩
      intro p hp
      rcases mem_mapInsert_elim hp with h2 | h2
      · rw [h2]
        unfold refsReq
        simp only [hs, hf]
        rfl
      · exact h p h2

theorem step_noref (r : Nat) (s : ConnectorWorkInfo) (st : WStep)
    (h : ∀ p ∈ s.mConnectingInfos, refsReq r p.2 = false)
    (ha : stepAvoids r st = true) :
    (∀ p ∈ (stepRun s st).1.mConnectingInfos, refsReq r p.2 = false) ∧
    evFilter r (stepRun s st).2 = [] := by
  cases st with
  | process addr env => exact processConnect_noref r s addr env h ha
  | runOnce env =>
    have h1 := checkConnectStatus_noref r s env.ready env.soError h
    have h2 := checkTimeout_noref r (checkConnectStatus s env.ready env.soError).1
      env.now h1.1
    unfold stepRun runOnceCheckConnect
    refine ⟨h2.1, ?_⟩
    rw [evFilter_append, h1.2, h2.2]
    rfl
  | shutdown => exact causeAllFailed_noref r s h

theorem run_noref (r : Nat) :
    ∀ (l : List WStep) (s : ConnectorWorkInfo),
      (∀ p ∈ s.mConnectingInfos, refsReq r p.2 = false) →
      (∀ st ∈ l, stepAvoids r st = true) →
      (∀ p ∈ (runSteps s l).1.mConnectingInfos, refsReq r p.2 = false) ∧
      evFilter r (runSteps s l).2 = [] := by
  intro l
  induction l with
  | nil => intro s h _; exact ⟨h, rfl⟩
  | cons st rest ih =>
    intro s h ha
    have h1 := step_noref r s st h (ha st (List.mem_cons_self st rest))
    have h2 := ih (stepRun s st).1 h1.1
      (fun x hx => ha x (List.mem_cons_of_mem st hx))
    unfold runSteps
    refine ⟨h2.1, ?_⟩
    rw [evFilter_append, h1.2, h2.2]
    rfl

/- ------------------------------------------------------------------
   Equations for whole worker runs.
   ------------------------------------------------------------------ -/

theorem runSteps_cons (s : ConnectorWorkInfo) (st : WStep) (rest : List WStep) :
    runSteps s (st :: rest) =
      ((runSteps (stepRun s st).1 rest).1,
       (stepRun s st).2 ++ (runSteps (stepRun s st).1 rest).2) := rfl

theorem freshRun_cons (s : ConnectorWorkInfo) (st : WStep) (rest : List WStep) :
    freshRun s (st :: rest) =
      (stepFresh s st && freshRun (stepRun s st).1 rest) := rfl

theorem runSteps_append (l1 : List WStep) :
    ∀ (s : ConnectorWorkInfo) (l2 : List WStep),
      runSteps s (l1 ++ l2) =
        ((runSteps (runSteps s l1).1 l2).1,
         (runSteps s l1).2 ++ (runSteps (runSteps s l1).1 l2).2) := by
  induction l1 with
  | nil => intro s l2; simp [runSteps]
  | cons st rest ih =>
    intro s l2
    rw [List.cons_append, runSteps_cons, runSteps_cons, ih (stepRun s st).1 l2]
    simp [List.append_assoc]

theorem runSteps_append_snd (l1 l2 : List WStep) (s : ConnectorWorkInfo) :
    (runSteps s (l1 ++ l2)).2 =
      (runSteps s l1).2 ++ (runSteps (runSteps s l1).1 l2).2 := by
  rw [runSteps_append]

theorem runSteps_append_fst (l1 l2 : List WStep) (s : ConnectorWorkInfo) :
    (runSteps s (l1 ++ l2)).1 = (runSteps (runSteps s l1).1 l2).1 := by
  rw [runSteps_append]

theorem runSteps_cons_snd (s : ConnectorWorkInfo) (st : WStep)
    (rest : List WStep) :
    (runSteps s (st :: rest)).2 =
      (stepRun s st).2 ++ (runSteps (stepRun s st).1 rest).2 := rfl

theorem freshRun_append (l1 : List WStep) :
    ∀ (s : ConnectorWorkInfo) (l2 : List WStep),
      freshRun s (l1 ++ l2) =
        (freshRun s l1 && freshRun (runSteps s l1).1 l2) := by
  induction l1 with
  | nil => intro s l2; simp [freshRun, runSteps]
  | cons st rest ih =>
    intro s l2
    rw [List.cons_append, freshRun_cons, freshRun_cons, ih (stepRun s st).1 l2]
    rw [runSteps_cons]
    simp [Bool.and_assoc]

/- ------------------------------------------------------------------
   Preservation of structural well-formedness.
   ------------------------------------------------------------------ -/

theorem WF_erase_all (s : ConnectorWorkInfo) (fd : Nat) (hwf : WF s) :
    WF ⟨mapErase fd s.mConnectingInfos, setErase fd s.mConnectingFds,
        setErase fd s.mFDSet⟩ := by
  obtain ⟨n1, n2, n3, h1, h2, h3, h4⟩ := hwf
  refine ⟨?_, nodup_setErase n2, nodup_setErase n3, ?_, ?_, ?_, ?_⟩
  · exact ((List.filter_sublist _).map Prod.fst).nodup n1
  · intro x hx
    rcases mem_setErase.mp hx with ⟨hm, hne⟩
    exact keys_mapErase.mpr ⟨h1 x hm, hne⟩
  · intro x hx
    rcases keys_mapErase.mp hx with ⟨hm, hne⟩
    exact mem_setErase.mpr ⟨h2 x hm, hne⟩
  · intro x hx
    rcases mem_setErase.mp hx with ⟨hm, hne⟩
    exact keys_mapErase.mpr ⟨h3 x hm, hne⟩
  · intro x hx
    rcases keys_mapErase.mp hx with ⟨hm, hne⟩
    exact mem_setErase.mpr ⟨h4 x hm, hne⟩

theorem WF_erase_sets_of_not_key (s : ConnectorWorkInfo) (fd : Nat)
    (hwf : WF s) (hnk : fd ∉ s.mConnectingInfos.map Prod.fst) :
    WF ⟨s.mConnectingInfos, setErase fd s.mConnectingFds,
        setErase fd s.mFDSet⟩ := by
  obtain ⟨n1, n2, n3, h1, h2, h3, h4⟩ := hwf
  refine ⟨n1, nodup_setErase n2, nodup_setErase n3, ?_, ?_, ?_, ?_⟩
  · intro x hx
    exact h1 x (mem_setErase.mp hx).1
  · intro x hx
    refine mem_setErase.mpr ⟨h2 x hx, ?_⟩
    intro he; exact hnk (he ▸ hx)
  · intro x hx
    exact h3 x (mem_setErase.mp hx).1
  · intro x hx
    refine mem_setErase.mpr ⟨h4 x hx, ?_⟩
    intro he; exact hnk (he ▸ hx)

theorem WF_ccsBody (sf : List Nat) (acc : ConnectorWorkInfo × List CEvent)
    (fd : Nat) (hwf : WF acc.1) : WF (ccsBody sf acc fd).1 := by
  cases hl : mapLookup fd acc.1.mConnectingInfos with
  | none =>
    rw [ccsBody_eq_none hl]
    exact WF_erase_sets_of_not_key acc.1 fd hwf (mapLookup_eq_none.mp hl)
  | some ci =>
    rw [ccsBody_eq_some hl]
    exact WF_erase_all acc.1 fd hwf

theorem WF_ccs_fold (sf : List Nat) :
    ∀ (l : List Nat) (acc : ConnectorWorkInfo × List CEvent),
      WF acc.1 → WF (l.foldl (ccsBody sf) acc).1 := by
  intro l
  induction l with
  | nil => intro acc h; exact h
  | cons fd fds ih =>
    intro acc h
    exact ih (ccsBody sf acc fd) (WF_ccsBody sf acc fd h)

theorem WF_checkConnectStatus (s : ConnectorWorkInfo) (re : Nat → Bool)
    (so : Nat → Option Nat) (hwf : WF s) :
    WF (checkConnectStatus s re so).1 := by
  unfold checkConnectStatus
  by_cases hg : pollCount s.mFDSet re = 0
  · rw [if_pos hg]; exact hwf
  · rw [if_neg hg]
    exact WF_ccs_fold _ _ (s, []) hwf

theorem WF_cafBody (acc : ConnectorWorkInfo × List CEvent)
    (p : Nat × ConnectingInfo) (hwf : WF acc.1) : WF (cafBody acc p).1 := by
  rw [cafBody_eq]
  exact WF_erase_all acc.1 p.1 hwf

theorem WF_ctBody (now : Nat) (acc : ConnectorWorkInfo × List CEvent)
    (p : Nat × ConnectingInfo) (hwf : WF acc.1) : WF (ctBody now acc p).1 := by
  by_cases hc : now - p.2.startConnectTime < p.2.timeout
  · rw [ctBody_eq_keep hc]; exact hwf
  · rw [ctBody_eq_fail hc]; exact WF_cafBody acc p hwf

theorem WF_ct_fold (now : Nat) :
    ∀ (l : List (Nat × ConnectingInfo)) (acc : ConnectorWorkInfo × List CEvent),
      WF acc.1 → WF (l.foldl (ctBody now) acc).1 := by
  intro l
  induction l with
  | nil => intro acc h; exact h
  | cons q qs ih =>
    intro acc h
    exact ih (ctBody now acc q) (WF_ctBody now acc q h)

theorem WF_caf_fold :
    ∀ (l : List (Nat × ConnectingInfo)) (acc : ConnectorWorkInfo × List CEvent),
      WF acc.1 → WF (l.foldl cafBody acc).1 := by
  intro l
  induction l with
  | nil => intro acc h; exact h
  | cons q qs ih =>
    intro acc h
    exact ih (cafBody acc q) (WF_cafBody acc q h)

theorem WF_checkTimeout (s : ConnectorWorkInfo) (now : Nat) (hwf : WF s) :
    WF (checkTimeout s now).1 :=
  WF_ct_fold now s.mConnectingInfos (s, []) hwf

theorem WF_causeAllFailed (s : ConnectorWorkInfo) (hwf : WF s) :
    WF (causeAllFailed s).1 :=
  WF_caf_fold s.mConnectingInfos (s, []) hwf

theorem stepFresh_process_elim {s : ConnectorWorkInfo}
    {addr : AsyncConnectAddr} {env : ProcEnv} {fd : Nat}
    (h : stepFresh s (WStep.process addr env) = true)
    (hfd : env.createdFd = some fd) :
    fd ∉ s.mConnectingInfos.map Prod.fst := by
  simp only [stepFresh] at h
  rw [hfd] at h
  have h2 : (!s.mConnectingInfos.any fun p => p.1 == fd) = true := h
  intro hm
  rcases List.mem_map.mp hm with ⟨p, hp, hpx⟩
  have hany : s.mConnectingInfos.any (fun p => p.1 == fd) = true :=
    List.any_eq_true.mpr ⟨p, hp, by simp [hpx]⟩
  rw [hany] at h2
  simp at h2

theorem WF_processConnect (s : ConnectorWorkInfo) (addr : AsyncConnectAddr)
    (env : ProcEnv) (hwf : WF s)
    (hfr : stepFresh s (WStep.process addr env) = true) :
    WF (processConnect s addr env).1 := by
  unfold processConnect
  cases hfd : env.createdFd with
  | none => exact hwf
  | some clientfd =>
    cases env.connectResult with
    | connected => exact hwf
    | otherError => exact hwf
    | inProgress =>
      have hnk : clientfd ∉ s.mConnectingInfos.map Prod.fst :=
        stepFresh_process_elim hfr hfd
      obtain ⟨n1, n2, n3, h1, h2, h3, h4⟩ := hwf
      have hnf : clientfd ∉ s.mConnectingFds := fun hm => hnk (h1 _ hm)
      have hnd : clientfd ∉ s.mFDSet := fun hm => hnk (h3 _ hm)
      refine ⟨nodup_keys_mapInsert n1 hnk, nodup_setInsert n2 hnf,
        nodup_setInsert n3 hnd, ?_, ?_, ?_, ?_⟩
      · intro x hx
        rcases mem_setInsert.mp hx with he | hm
        · exact keys_mapInsert.mpr (Or.inl he)
        · exact keys_mapInsert.mpr (Or.inr (h1 x hm))
      · intro x hx
        rcases keys_mapInsert.mp hx with he | hm
        · exact mem_setInsert.mpr (Or.inl he)
        · exact mem_setInsert.mpr (Or.inr (h2 x hm))
      · intro x hx
        rcases mem_setInsert.mp hx with he | hm
        · exact keys_mapInsert.mpr (Or.inl he)
        · exact keys_mapInsert.mpr (Or.inr (h3 x hm))
      · intro x hx
        rcases keys_mapInsert.mp hx with he | hm
        · exact mem_setInsert.mpr (Or.inl he)
        · exact mem_setInsert.mpr (Or.inr (h4 x hm))

theorem WF_stepRun (s : ConnectorWorkInfo) (st : WStep) (hwf : WF s)
    (hfr : stepFresh s st = true) : WF (stepRun s st).1 := by
  cases st with
  | process addr env => exact WF_processConnect s addr env hwf hfr
  | runOnce env =>
    exact WF_checkTimeout _ env.now (WF_checkConnectStatus s env.ready env.soError hwf)
  | shutdown => exact WF_causeAllFailed s hwf

theorem WF_runSteps :
    ∀ (l : List WStep) (s : ConnectorWorkInfo),
      WF s → freshRun s l = true → WF (runSteps s l).1 := by
  intro l
  induction l with
  | nil => intro s h _; exact h
  | cons st rest ih =>
    intro s h hfr
    rw [freshRun_cons] at hfr
    rcases Bool.and_eq_true_iff.mp hfr with ⟨hf1, hf2⟩
    rw [runSteps_cons]
    exact ih (stepRun s st).1 (WF_stepRun s st h hf1) hf2

theorem WF_initialWork : WF initialWork := by
  refine ⟨List.nodup_nil, List.nodup_nil, List.nodup_nil, ?_, ?_, ?_, ?_⟩ <;>
    intro x hx <;> cases hx

/- ------------------------------------------------------------------
   Decomposition helpers for the tracked-entry arguments.
   ------------------------------------------------------------------ -/

theorem refs_of_reqEntries_singleton {r fd : Nat} {ci : ConnectingInfo}
    {l : List (Nat × ConnectingInfo)} (hq : reqEntriesL r l = [(fd, ci)]) :
    (fd, ci) ∈ l ∧ refsReq r ci = true := by
  have hm : (fd, ci) ∈ reqEntriesL r l := by
    rw [hq]; exact List.mem_singleton.mpr rfl
  have h2 := List.mem_filter.mp hm
  exact ⟨h2.1, h2.2⟩

theorem noref_entry_of_singleton {r fd : Nat} {ci : ConnectingInfo}
    {l : List (Nat × ConnectingInfo)} (hq : reqEntriesL r l = [(fd, ci)])
    {p : Nat × ConnectingInfo} (hp : p ∈ l) (hne : p ≠ (fd, ci)) :
    refsReq r p.2 = false := by
  cases hr : refsReq r p.2
  · rfl
  · exfalso
    have hmem : p ∈ reqEntriesL r l := List.mem_filter.mpr ⟨hp, hr⟩
    rw [hq] at hmem
    exact hne (List.mem_singleton.mp hmem)

theorem mapErase_singleton_ne {a fd : Nat} {ci : ConnectingInfo} (h : fd ≠ a) :
    mapErase a [(fd, ci)] = [(fd, ci)] := by
  simp [mapErase, h]

theorem mapErase_singleton_self {fd : Nat} {ci : ConnectingInfo} :
    mapErase fd [(fd, ci)] = [] := by
  simp [mapErase]

theorem reqEntriesL_mapErase {r a : Nat} {l : List (Nat × ConnectingInfo)} :
    reqEntriesL r (mapErase a l) = mapErase a (reqEntriesL r l) :=
  filter_mapErase _ a l

theorem nodup_split_notmem {A B : List Nat} {x : Nat}
    (hn : (A ++ x :: B).Nodup) : x ∉ A ∧ x ∉ B := by
  rw [List.nodup_append] at hn
  obtain ⟨h1, h2, h3⟩ := hn
  rw [List.nodup_cons] at h2
  exact ⟨fun hm => h3 hm (List.mem_cons_self x B), h2.1⟩

theorem nodup_keys_split {A B : List (Nat × ConnectingInfo)} {fd : Nat}
    {ci : ConnectingInfo}
    (hn : ((A ++ (fd, ci) :: B).map Prod.fst).Nodup) :
    (∀ p ∈ A, p.1 ≠ fd) ∧ (∀ p ∈ B, p.1 ≠ fd) := by
  rw [List.map_append, List.map_cons] at hn
  have h := nodup_split_notmem hn
  constructor
  · intro p hp he
    exact h.1 (he ▸ List.mem_map.mpr ⟨p, hp, rfl⟩)
  · intro p hp he
    exact h.2 (he ▸ List.mem_map.mpr ⟨p, hp, rfl⟩)

theorem filter_split_singleton {q : Nat × ConnectingInfo → Bool}
    {A B : List (Nat × ConnectingInfo)} {x : Nat × ConnectingInfo}
    (hq : (A ++ x :: B).filter q = [x]) (hx : q x = true) :
    (∀ p ∈ A, q p = false) ∧ (∀ p ∈ B, q p = false) := by
  rw [List.filter_append, List.filter_cons, if_pos hx] at hq
  have hlen := congrArg List.length hq
  rw [List.length_append, List.length_cons] at hlen
  simp only [List.length_cons, List.length_nil] at hlen
  have hA : A.filter q = [] :=
    List.eq_nil_of_length_eq_zero (by omega)
  have hB : B.filter q = [] :=
    List.eq_nil_of_length_eq_zero (by omega)
  have hA2 := List.filter_eq_nil_iff.mp hA
  have hB2 := List.filter_eq_nil_iff.mp hB
  constructor
  · intro p hp
    cases hqq : q p
    · rfl
    · exact absurd hqq (hA2 p hp)
  · intro p hp
    cases hqq : q p
    · rfl
    · exact absurd hqq (hB2 p hp)

/- ------------------------------------------------------------------
   Tracked-entry preservation through the readiness fold: as long as
   the tracked fd is not among the processed ready fds, its entry and
   registrations survive untouched and no event of its request fires.
   ------------------------------------------------------------------ -/

theorem ccs_fold_track (r : Nat) (sf : List Nat) (fd : Nat)
    (ci : ConnectingInfo) :
    ∀ (l : List Nat) (acc : ConnectorWorkInfo × List CEvent),
      fd ∉ l →
      mapLookup fd acc.1.mConnectingInfos = some ci →
      reqEntriesL r acc.1.mConnectingInfos = [(fd, ci)] →
      fd ∈ acc.1.mConnectingFds →
      fd ∈ acc.1.mFDSet →
      mapLookup fd (l.foldl (ccsBody sf) acc).1.mConnectingInfos = some ci ∧
      reqEntriesL r (l.foldl (ccsBody sf) acc).1.mConnectingInfos = [(fd, ci)] ∧
      fd ∈ (l.foldl (ccsBody sf) acc).1.mConnectingFds ∧
      fd ∈ (l.foldl (ccsBody sf) acc).1.mFDSet ∧
      evFilter r (l.foldl (ccsBody sf) acc).2 = evFilter r acc.2 := by
  intro l
  induction l with
  | nil => intro acc _ h1 h2 h3 h4; exact ⟨h1, h2, h3, h4, rfl⟩
  | cons a as ih =>
    intro acc hnl h1 h2 h3 h4
    have hfda : fd ≠ a := fun he => hnl (by rw [he]; exact List.mem_cons_self a as)
    have hafd : a ≠ fd := fun he => hfda he.symm
    have hnas : fd ∉ as := fun hm => hnl (List.mem_cons_of_mem a hm)
    rw [List.foldl_cons]
    cases hl : mapLookup a acc.1.mConnectingInfos with
    | none =>
      have hb := @ccsBody_eq_none sf acc a hl
      have r1 : mapLookup fd (ccsBody sf acc a).1.mConnectingInfos = some ci := by
        rw [hb]; exact h1
      have r2 : reqEntriesL r (ccsBody sf acc a).1.mConnectingInfos = [(fd, ci)] := by
        rw [hb]; exact h2
      have r3 : fd ∈ (ccsBody sf acc a).1.mConnectingFds := by
        rw [hb]; exact mem_setErase.mpr ⟨h3, hfda⟩
      have r4 : fd ∈ (ccsBody sf acc a).1.mFDSet := by
        rw [hb]; exact mem_setErase.mpr ⟨h4, hfda⟩
      have ihh := ih (ccsBody sf acc a) hnas r1 r2 r3 r4
      refine ⟨ihh.1, ihh.2.1, ihh.2.2.1, ihh.2.2.2.1, ?_⟩
      rw [ihh.2.2.2.2, hb]
    | some ca =>
      have hb := @ccsBody_eq_some sf acc a ca hl
      have hca : refsReq r ca = false := by
        apply noref_entry_of_singleton h2 (mapLookup_mem hl)
        intro he
        exact hafd (congrArg Prod.fst he)
      have r1 : mapLookup fd (ccsBody sf acc a).1.mConnectingInfos = some ci := by
        rw [hb]
        exact (mapLookup_mapErase_ne hafd).trans h1
      have r2 : reqEntriesL r (ccsBody sf acc a).1.mConnectingInfos = [(fd, ci)] := by
        rw [hb]
        show reqEntriesL r (mapErase a acc.1.mConnectingInfos) = [(fd, ci)]
        rw [reqEntriesL_mapErase, h2, mapErase_singleton_ne hfda]
      have r3 : fd ∈ (ccsBody sf acc a).1.mConnectingFds := by
        rw [hb]; exact mem_setErase.mpr ⟨h3, hfda⟩
      have r4 : fd ∈ (ccsBody sf acc a).1.mFDSet := by
        rw [hb]; exact mem_setErase.mpr ⟨h4, hfda⟩
      have ihh := ih (ccsBody sf acc a) hnas r1 r2 r3 r4
      refine ⟨ihh.1, ihh.2.1, ihh.2.2.1, ihh.2.2.2.1, ?_⟩
      rw [ihh.2.2.2.2, hb]
      show evFilter r (acc.2 ++ ccsEvents sf a ca) = evFilter r acc.2
      rw [evFilter_append, evFilter_ccsEvents_noref hca, List.append_nil]

/- ------------------------------------------------------------------
   Tracked-entry preservation through the timeout fold.
   ------------------------------------------------------------------ -/

theorem ct_fold_track (r now fd : Nat) (ci : ConnectingInfo) :
    ∀ (l : List (Nat × ConnectingInfo)) (acc : ConnectorWorkInfo × List CEvent),
      (∀ p ∈ l, refsReq r p.2 = true → p = (fd, ci)) →
      (∀ p ∈ l, p.1 = fd →
        p = (fd, ci) ∧ now - ci.startConnectTime < ci.timeout) →
      mapLookup fd acc.1.mConnectingInfos = some ci →
      reqEntriesL r acc.1.mConnectingInfos = [(fd, ci)] →
      fd ∈ acc.1.mConnectingFds →
      fd ∈ acc.1.mFDSet →
      mapLookup fd (l.foldl (ctBody now) acc).1.mConnectingInfos = some ci ∧
      reqEntriesL r (l.foldl (ctBody now) acc).1.mConnectingInfos = [(fd, ci)] ∧
      fd ∈ (l.foldl (ctBody now) acc).1.mConnectingFds ∧
      fd ∈ (l.foldl (ctBody now) acc).1.mFDSet ∧
      evFilter r (l.foldl (ctBody now) acc).2 = evFilter r acc.2 := by
  intro l
  induction l with
  | nil => intro acc _ _ h1 h2 h3 h4; exact ⟨h1, h2, h3, h4, rfl⟩
  | cons p ps ih =>
    intro acc hrefs hkeys h1 h2 h3 h4
    have hrefs2 : ∀ q ∈ ps, refsReq r q.2 = true → q = (fd, ci) :=
      fun q hq => hrefs q (List.mem_cons_of_mem p hq)
    have hkeys2 : ∀ q ∈ ps, q.1 = fd →
        q = (fd, ci) ∧ now - ci.startConnectTime < ci.timeout :=
      fun q hq => hkeys q (List.mem_cons_of_mem p hq)
    rw [List.foldl_cons]
    by_cases hpfd : p.1 = fd
    · have hpe := hkeys p (List.mem_cons_self p ps) hpfd
      have hc : now - p.2.startConnectTime < p.2.timeout := by
        rw [hpe.1]; exact hpe.2
      rw [ctBody_eq_keep hc]
      exact ih acc hrefs2 hkeys2 h1 h2 h3 h4
    · have hpne : p ≠ (fd, ci) := fun he => hpfd (congrArg Prod.fst he)
      have hpref : refsReq r p.2 = false := by
        cases hr : refsReq r p.2
        · rfl
        · exact absurd (hrefs p (List.mem_cons_self p ps) hr) hpne
      by_cases hc : now - p.2.startConnectTime < p.2.timeout
      · rw [ctBody_eq_keep hc]
        exact ih acc hrefs2 hkeys2 h1 h2 h3 h4
      · rw [ctBody_eq_fail hc]
        have hb := cafBody_eq acc p
        have hfdp : fd ≠ p.1 := fun he => hpfd he.symm
        have hp1fd : p.1 ≠ fd := hpfd
        have r1 : mapLookup fd (cafBody acc p).1.mConnectingInfos = some ci := by
          rw [hb]
          exact (mapLookup_mapErase_ne hp1fd).trans h1
        have r2 : reqEntriesL r (cafBody acc p).1.mConnectingInfos = [(fd, ci)] := by
          rw [hb]
          show reqEntriesL r (mapErase p.1 acc.1.mConnectingInfos) = [(fd, ci)]
          rw [reqEntriesL_mapErase, h2, mapErase_singleton_ne hfdp]
        have r3 : fd ∈ (cafBody acc p).1.mConnectingFds := by
          rw [hb]; exact mem_setErase.mpr ⟨h3, hfdp⟩
        have r4 : fd ∈ (cafBody acc p).1.mFDSet := by
          rw [hb]; exact mem_setErase.mpr ⟨h4, hfdp⟩
        have ihh := ih (cafBody acc p) hrefs2 hkeys2 r1 r2 r3 r4
        refine ⟨ihh.1, ihh.2.1, ihh.2.2.1, ihh.2.2.2.1, ?_⟩
        rw [ihh.2.2.2.2, hb]
        show evFilter r (acc.2 ++ CEvent.closed p.1 :: failedCBEvents p.2.failedCB) =
          evFilter r acc.2
        rw [evFilter_append, evFilter_cafEvents_noref hpref, List.append_nil]

/- ------------------------------------------------------------------
   Tracked-entry preservation through the shutdown fold over entries
   that neither reference the request nor carry its fd.
   ------------------------------------------------------------------ -/

theorem caf_fold_track (r fd : Nat) (ci : ConnectingInfo) :
    ∀ (l : List (Nat × ConnectingInfo)) (acc : ConnectorWorkInfo × List CEvent),
      (∀ p ∈ l, refsReq r p.2 = false) →
      (∀ p ∈ l, p.1 ≠ fd) →
      mapLookup fd acc.1.mConnectingInfos = some ci →
      reqEntriesL r acc.1.mConnectingInfos = [(fd, ci)] →
      mapLookup fd (l.foldl cafBody acc).1.mConnectingInfos = some ci ∧
      reqEntriesL r (l.foldl cafBody acc).1.mConnectingInfos = [(fd, ci)] ∧
      evFilter r (l.foldl cafBody acc).2 = evFilter r acc.2 := by
  intro l
  induction l with
  | nil => intro acc _ _ h1 h2; exact ⟨h1, h2, rfl⟩
  | cons p ps ih =>
    intro acc hrefs hkeys h1 h2
    have hrefs2 : ∀ q ∈ ps, refsReq r q.2 = false :=
      fun q hq => hrefs q (List.mem_cons_of_mem p hq)
    have hkeys2 : ∀ q ∈ ps, q.1 ≠ fd :=
      fun q hq => hkeys q (List.mem_cons_of_mem p hq)
    have hpfd : p.1 ≠ fd := hkeys p (List.mem_cons_self p ps)
    have hfdp : fd ≠ p.1 := fun he => hpfd he.symm
    rw [List.foldl_cons]
    have hb := cafBody_eq acc p
    have r1 : mapLookup fd (cafBody acc p).1.mConnectingInfos = some ci := by
      rw [hb]
      exact (mapLookup_mapErase_ne hpfd).trans h1
    have r2 : reqEntriesL r (cafBody acc p).1.mConnectingInfos = [(fd, ci)] := by
      rw [hb]
      show reqEntriesL r (mapErase p.1 acc.1.mConnectingInfos) = [(fd, ci)]
      rw [reqEntriesL_mapErase, h2, mapErase_singleton_ne hfdp]
    have ihh := ih (cafBody acc p) hrefs2 hkeys2 r1 r2
    refine ⟨ihh.1, ihh.2.1, ?_⟩
    rw [ihh.2.2, hb]
    show evFilter r (acc.2 ++ CEvent.closed p.1 :: failedCBEvents p.2.failedCB) =
      evFilter r acc.2
    rw [evFilter_append,
      evFilter_cafEvents_noref (hrefs p (List.mem_cons_self p ps)), List.append_nil]

/- ------------------------------------------------------------------
   A kept entry survives the timeout fold untouched, and its fd is
   never closed there.
   ------------------------------------------------------------------ -/

theorem ct_fold_keepfd (now fd : Nat) (ci : ConnectingInfo) :
    ∀ (l : List (Nat × ConnectingInfo)) (acc : ConnectorWorkInfo × List CEvent),
      (∀ p ∈ l, p.1 = fd →
        p = (fd, ci) ∧ now - ci.startConnectTime < ci.timeout) →
      (fd, ci) ∈ acc.1.mConnectingInfos →
      fd ∈ acc.1.mConnectingFds →
      fd ∈ acc.1.mFDSet →
      CEvent.closed fd ∉ acc.2 →
      (fd, ci) ∈ (l.foldl (ctBody now) acc).1.mConnectingInfos ∧
      fd ∈ (l.foldl (ctBody now) acc).1.mConnectingFds ∧
      fd ∈ (l.foldl (ctBody now) acc).1.mFDSet ∧
      CEvent.closed fd ∉ (l.foldl (ctBody now) acc).2 := by
  intro l
  induction l with
  | nil => intro acc _ h1 h2 h3 h4; exact ⟨h1, h2, h3, h4⟩
  | cons p ps ih =>
    intro acc hkeys h1 h2 h3 h4
    have hkeys2 : ∀ q ∈ ps, q.1 = fd →
        q = (fd, ci) ∧ now - ci.startConnectTime < ci.timeout :=
      fun q hq => hkeys q (List.mem_cons_of_mem p hq)
    rw [List.foldl_cons]
    by_cases hpfd : p.1 = fd
    · have hpe := hkeys p (List.mem_cons_self p ps) hpfd
      have hc : now - p.2.startConnectTime < p.2.timeout := by
        rw [hpe.1]; exact hpe.2
      rw [ctBody_eq_keep hc]
      exact ih acc hkeys2 h1 h2 h3 h4
    · have hfdp : fd ≠ p.1 := fun he => hpfd he.symm
      by_cases hc : now - p.2.startConnectTime < p.2.timeout
      · rw [ctBody_eq_keep hc]
        exact ih acc hkeys2 h1 h2 h3 h4
      · rw [ctBody_eq_fail hc]
        have hb := cafBody_eq acc p
        have r1 : (fd, ci) ∈ (cafBody acc p).1.mConnectingInfos := by
          rw [hb]
          exact mem_mapErase.mpr ⟨h1, hfdp⟩
        have r2 : fd ∈ (cafBody acc p).1.mConnectingFds := by
          rw [hb]; exact mem_setErase.mpr ⟨h2, hfdp⟩
        have r3 : fd ∈ (cafBody acc p).1.mFDSet := by
          rw [hb]; exact mem_setErase.mpr ⟨h3, hfdp⟩
        have r4 : CEvent.closed fd ∉ (cafBody acc p).2 := by
          rw [hb]
          intro hm
          rcases List.mem_append.mp hm with hm | hm
          · exact h4 hm
          · rcases List.mem_cons.mp hm with hm | hm
            · have : fd = p.1 := by injection hm
              exact hfdp this
            · cases hcb : p.2.failedCB with
              | none => rw [hcb] at hm; cases hm
              | some c =>
                rw [hcb] at hm
                rcases List.mem_cons.mp hm with hm | hm
                · cases hm
                · cases hm
        exact ih (cafBody acc p) hkeys2 r1 r2 r3 r4

/- ------------------------------------------------------------------
   Readiness outcome of a tracked ready fd.
   ------------------------------------------------------------------ -/

theorem isConnectSuccess_ready {s : ConnectorWorkInfo} {re : Nat → Bool}
    {so : Nat → Option Nat} {fd : Nat}
    (hready : fdsetCheck s.mFDSet re fd = true) :
    isConnectSuccess s re so fd = decide (so fd = some 0) := by
  unfold isConnectSuccess
  rw [hready]
  cases hso : so fd with
  | none => simp
  | some e =>
    simp only [Bool.not_true, Bool.false_eq_true, if_false]
    cases he : e == 0
    · have : ¬(e = 0) := by
        intro h0; rw [h0] at he; simp at he
      simp [this]
    · have : e = 0 := by
        cases hee : e
        · rfl
        · rw [hee] at he; simp at he
      simp [this]

theorem contains_eq_true_iff {l : List Nat} {fd : Nat} :
    l.contains fd = true ↔ fd ∈ l := by
  simp [List.contains]

theorem contains_filter_eq {l : List Nat} {fd : Nat} {g : Nat → Bool}
    (h : fd ∈ l) : (l.filter g).contains fd = g fd := by
  cases hg : g fd
  · cases hc : (l.filter g).contains fd
    · rfl
    · exfalso
      have hm := contains_eq_true_iff.mp hc
      rw [List.mem_filter] at hm
      rw [hm.2] at hg
      cases hg
  · exact contains_eq_true_iff.mpr (List.mem_filter.mpr ⟨h, hg⟩)

theorem evFilter_ccsEvents_ref {r fd : Nat} {sf : List Nat}
    {ci : ConnectingInfo} (hs : ci.successCB = some r)
    (hf : ci.failedCB = some r) :
    evFilter r (ccsEvents sf fd ci) =
      if sf.contains fd then [CEvent.success r fd] else [CEvent.failure r] := by
  unfold ccsEvents
  by_cases hc : sf.contains fd
  · rw [if_pos hc, if_pos hc, hs]
    simp [evFilter, List.filter_cons, evFor_success]
  · rw [if_neg hc, if_neg hc, hf]
    simp [evFilter, List.filter_cons, List.filter_append, evFor_failure,
      evFor_closed]

theorem checkConnectStatus_eq_fold {s : ConnectorWorkInfo} {re : Nat → Bool}
    {so : Nat → Option Nat} (hg : ¬(pollCount s.mFDSet re = 0)) :
    checkConnectStatus s re so =
      (s.mConnectingFds.filter (fun v => fdsetCheck s.mFDSet re v)).foldl
        (ccsBody
          ((s.mConnectingFds.filter (fun v => fdsetCheck s.mFDSet re v)).filter
            (fun v => isConnectSuccess s re so v))) (s, []) := by
  unfold checkConnectStatus
  rw [if_neg hg]

/- ------------------------------------------------------------------
   Resolution of a tracked ready fd by the readiness fold.
   ------------------------------------------------------------------ -/

theorem ccs_fold_resolve (r : Nat) (sf : List Nat) (fd : Nat)
    (ci : ConnectingInfo) (A B : List Nat) (s : ConnectorWorkInfo)
    (hnA : fd ∉ A) (_hnB : fd ∉ B)
    (hlook : mapLookup fd s.mConnectingInfos = some ci)
    (hq : reqEntriesL r s.mConnectingInfos = [(fd, ci)])
    (hfds : fd ∈ s.mConnectingFds) (hfdset : fd ∈ s.mFDSet) :
    (∀ p ∈ ((A ++ fd :: B).foldl (ccsBody sf) (s, [])).1.mConnectingInfos,
      refsReq r p.2 = false) ∧
    evFilter r ((A ++ fd :: B).foldl (ccsBody sf) (s, [])).2 =
      evFilter r (ccsEvents sf fd ci) ∧
    fd ∉ ((A ++ fd :: B).foldl (ccsBody sf) (s, [])).1.mConnectingInfos.map
      Prod.fst := by
  rw [List.foldl_append, List.foldl_cons]
  have htr := ccs_fold_track r sf fd ci A ((s : ConnectorWorkInfo), ([] : List CEvent))
    hnA hlook hq hfds hfdset
  have hb := @ccsBody_eq_some sf (A.foldl (ccsBody sf) (s, [])) fd ci htr.1
  have hre : reqEntriesL r
      (ccsBody sf (A.foldl (ccsBody sf) (s, [])) fd).1.mConnectingInfos = [] := by
    rw [hb]
    show reqEntriesL r
      (mapErase fd (A.foldl (ccsBody sf) (s, [])).1.mConnectingInfos) = []
    rw [reqEntriesL_mapErase, htr.2.1, mapErase_singleton_self]
  have hnoref : ∀ p ∈ (ccsBody sf (A.foldl (ccsBody sf) (s, [])) fd).1.mConnectingInfos,
      refsReq r p.2 = false := by
    have h2 := List.filter_eq_nil_iff.mp hre
    intro p hp
    cases hr : refsReq r p.2
    · rfl
    · exact absurd hr (h2 p hp)
  have hBfold := ccs_fold_noref r sf B
    (ccsBody sf (A.foldl (ccsBody sf) (s, [])) fd) hnoref
  refine ⟨hBfold.1, ?_, ?_⟩
  · rw [hBfold.2, hb]
    show evFilter r ((A.foldl (ccsBody sf) (s, [])).2 ++ ccsEvents sf fd ci) = _
    rw [evFilter_append, htr.2.2.2.2]
    rfl
  · intro hk
    rcases List.mem_map.mp hk with ⟨p, hp, hpx⟩
    have hp2 := ccs_fold_infos_sub sf B
      (ccsBody sf (A.foldl (ccsBody sf) (s, [])) fd) p hp
    rw [hb] at hp2
    have hp3 : p ∈ mapErase fd (A.foldl (ccsBody sf) (s, [])).1.mConnectingInfos := hp2
    exact (mem_mapErase.mp hp3).2 hpx

theorem checkConnectStatus_resolve (r : Nat) (s : ConnectorWorkInfo)
    (re : Nat → Bool) (so : Nat → Option Nat) (fd : Nat) (ci : ConnectingInfo)
    (hwf : WF s)
    (hq : reqEntriesL r s.mConnectingInfos = [(fd, ci)])
    (hs : ci.successCB = some r) (hf : ci.failedCB = some r)
    (hready : fdsetCheck s.mFDSet re fd = true) :
    (∀ p ∈ (checkConnectStatus s re so).1.mConnectingInfos,
      refsReq r p.2 = false) ∧
    evFilter r (checkConnectStatus s re so).2 =
      (if so fd = some 0 then [CEvent.success r fd] else [CEvent.failure r]) ∧
    fd ∉ (checkConnectStatus s re so).1.mConnectingInfos.map Prod.fst := by
  obtain ⟨n1, n2, n3, w1, w2, w3, w4⟩ := hwf
  have hmem : (fd, ci) ∈ s.mConnectingInfos := (refs_of_reqEntries_singleton hq).1
  have hkey : fd ∈ s.mConnectingInfos.map Prod.fst :=
    List.mem_map.mpr ⟨(fd, ci), hmem, rfl⟩
  have hfds : fd ∈ s.mConnectingFds := w2 fd hkey
  have hfdset : fd ∈ s.mFDSet := w4 fd hkey
  have hlook : mapLookup fd s.mConnectingInfos = some ci :=
    mapLookup_of_mem_nodup hmem n1
  have hrc := Bool.and_eq_true_iff.mp hready
  have hg : ¬(pollCount s.mFDSet re = 0) := by
    unfold pollCount
    have hmem2 : fd ∈ s.mFDSet.filter re := List.mem_filter.mpr ⟨hfdset, hrc.2⟩
    intro h0
    rw [List.length_eq_zero] at h0
    rw [h0] at hmem2
    cases hmem2
  have hfdT : fd ∈ s.mConnectingFds.filter (fun v => fdsetCheck s.mFDSet re v) :=
    List.mem_filter.mpr ⟨hfds, hready⟩
  have hTnd : (s.mConnectingFds.filter (fun v => fdsetCheck s.mFDSet re v)).Nodup :=
    n2.filter _
  rcases List.append_of_mem hfdT with ⟨A, B, hAB⟩
  have hsplit := nodup_split_notmem (hAB ▸ hTnd)
  have hcont : ((s.mConnectingFds.filter (fun v => fdsetCheck s.mFDSet re v)).filter
      (fun v => isConnectSuccess s re so v)).contains fd =
      decide (so fd = some 0) := by
    rw [contains_filter_eq hfdT, isConnectSuccess_ready hready]
  rw [checkConnectStatus_eq_fold hg]
  have hres := ccs_fold_resolve r
    ((s.mConnectingFds.filter (fun v => fdsetCheck s.mFDSet re v)).filter
      (fun v => isConnectSuccess s re so v))
    fd ci A B s hsplit.1 hsplit.2 hlook hq hfds hfdset
  rw [hAB] at *
  refine ⟨hres.1, ?_, hres.2.2⟩
  rw [hres.2.1, evFilter_ccsEvents_ref hs hf, hcont]
  by_cases hso : so fd = some 0
  · rw [if_pos hso, if_pos (by simp [hso])]
  · rw [if_neg hso, if_neg (by simp [hso])]

theorem checkConnectStatus_keep (r : Nat) (s : ConnectorWorkInfo)
    (re : Nat → Bool) (so : Nat → Option Nat) (fd : Nat) (ci : ConnectingInfo)
    (hwf : WF s)
    (hq : reqEntriesL r s.mConnectingInfos = [(fd, ci)])
    (hnotready : fdsetCheck s.mFDSet re fd = false) :
    mapLookup fd (checkConnectStatus s re so).1.mConnectingInfos = some ci ∧
    reqEntriesL r (checkConnectStatus s re so).1.mConnectingInfos = [(fd, ci)] ∧
    fd ∈ (checkConnectStatus s re so).1.mConnectingFds ∧
    fd ∈ (checkConnectStatus s re so).1.mFDSet ∧
    evFilter r (checkConnectStatus s re so).2 = [] := by
  obtain ⟨n1, n2, n3, w1, w2, w3, w4⟩ := hwf
  have hmem : (fd, ci) ∈ s.mConnectingInfos := (refs_of_reqEntries_singleton hq).1
  have hkey : fd ∈ s.mConnectingInfos.map Prod.fst :=
    List.mem_map.mpr ⟨(fd, ci), hmem, rfl⟩
  have hfds : fd ∈ s.mConnectingFds := w2 fd hkey
  have hfdset : fd ∈ s.mFDSet := w4 fd hkey
  have hlook : mapLookup fd s.mConnectingInfos = some ci :=
    mapLookup_of_mem_nodup hmem n1
  unfold checkConnectStatus
  by_cases hg : pollCount s.mFDSet re = 0
  · rw [if_pos hg]
    exact ⟨hlook, hq, hfds, hfdset, rfl⟩
  · rw [if_neg hg]
    have hnT : fd ∉ s.mConnectingFds.filter (fun v => fdsetCheck s.mFDSet re v) := by
      intro hm
      rw [(List.mem_filter.mp hm).2] at hnotready
      cases hnotready
    exact ccs_fold_track r _ fd ci _ (s, []) hnT hlook hq hfds hfdset

/- ------------------------------------------------------------------
   Timeout fold on a tracked entry.
   ------------------------------------------------------------------ -/

theorem evFilter_closed_failure (r fd : Nat) :
    evFilter r (CEvent.closed fd :: failedCBEvents (some r)) =
      [CEvent.failure r] := by
  simp [evFilter, failedCBEvents, List.filter_cons, evFor_closed, evFor_failure]

theorem checkTimeout_keep_r (r : Nat) (s : ConnectorWorkInfo) (now fd : Nat)
    (ci : ConnectingInfo) (hwf : WF s)
    (hq : reqEntriesL r s.mConnectingInfos = [(fd, ci)])
    (hkeep : now - ci.startConnectTime < ci.timeout) :
    mapLookup fd (checkTimeout s now).1.mConnectingInfos = some ci ∧
    reqEntriesL r (checkTimeout s now).1.mConnectingInfos = [(fd, ci)] ∧
    fd ∈ (checkTimeout s now).1.mConnectingFds ∧
    fd ∈ (checkTimeout s now).1.mFDSet ∧
    evFilter r (checkTimeout s now).2 = [] := by
  obtain ⟨n1, n2, n3, w1, w2, w3, w4⟩ := hwf
  have hmem : (fd, ci) ∈ s.mConnectingInfos := (refs_of_reqEntries_singleton hq).1
  have hkey : fd ∈ s.mConnectingInfos.map Prod.fst :=
    List.mem_map.mpr ⟨(fd, ci), hmem, rfl⟩
  have hfds : fd ∈ s.mConnectingFds := w2 fd hkey
  have hfdset : fd ∈ s.mFDSet := w4 fd hkey
  have hlook : mapLookup fd s.mConnectingInfos = some ci :=
    mapLookup_of_mem_nodup hmem n1
  have hrefs : ∀ p ∈ s.mConnectingInfos, refsReq r p.2 = true → p = (fd, ci) := by
    intro p hp hr
    have hm2 : p ∈ reqEntriesL r s.mConnectingInfos := List.mem_filter.mpr ⟨hp, hr⟩
    rw [hq] at hm2
    exact List.mem_singleton.mp hm2
  have hkeys : ∀ p ∈ s.mConnectingInfos, p.1 = fd →
      p = (fd, ci) ∧ now - ci.startConnectTime < ci.timeout :=
    fun p hp hpfd => ⟨keys_nodup_unique n1 hmem p hp hpfd, hkeep⟩
  exact ct_fold_track r now fd ci s.mConnectingInfos (s, []) hrefs hkeys
    hlook hq hfds hfdset

theorem checkTimeout_expire_r (r : Nat) (s : ConnectorWorkInfo) (now fd : Nat)
    (ci : ConnectingInfo) (hwf : WF s)
    (hq : reqEntriesL r s.mConnectingInfos = [(fd, ci)])
    (hf : ci.failedCB = some r)
    (hexp : ¬(now - ci.startConnectTime < ci.timeout)) :
    (∀ p ∈ (checkTimeout s now).1.mConnectingInfos, refsReq r p.2 = false) ∧
    evFilter r (checkTimeout s now).2 = [CEvent.failure r] ∧
    fd ∉ (checkTimeout s now).1.mConnectingInfos.map Prod.fst := by
  obtain ⟨n1, n2, n3, w1, w2, w3, w4⟩ := hwf
  have hmem : (fd, ci) ∈ s.mConnectingInfos := (refs_of_reqEntries_singleton hq).1
  have hkey : fd ∈ s.mConnectingInfos.map Prod.fst :=
    List.mem_map.mpr ⟨(fd, ci), hmem, rfl⟩
  have hfds : fd ∈ s.mConnectingFds := w2 fd hkey
  have hfdset : fd ∈ s.mFDSet := w4 fd hkey
  have hlook : mapLookup fd s.mConnectingInfos = some ci :=
    mapLookup_of_mem_nodup hmem n1
  rcases List.append_of_mem hmem with ⟨A, B, hAB⟩
  have hks := nodup_keys_split (hAB ▸ n1)
  have hrq : refsReq r ci = true := (refs_of_reqEntries_singleton hq).2
  have hfs := filter_split_singleton (hAB ▸ hq) hrq
  unfold checkTimeout
  rw [hAB, List.foldl_append, List.foldl_cons]
  have hArefs : ∀ p ∈ A, refsReq r p.2 = true → p = (fd, ci) := by
    intro p hp hr
    rw [hfs.1 p hp] at hr
    cases hr
  have hAkeys : ∀ p ∈ A, p.1 = fd →
      p = (fd, ci) ∧ now - ci.startConnectTime < ci.timeout := by
    intro p hp hpfd
    exact absurd hpfd (hks.1 p hp)
  have hAfold := ct_fold_track r now fd ci A
    ((s : ConnectorWorkInfo), ([] : List CEvent)) hArefs hAkeys hlook hq hfds hfdset
  have hmid : ctBody now (A.foldl (ctBody now) (s, [])) (fd, ci) =
      cafBody (A.foldl (ctBody now) (s, [])) (fd, ci) :=
    ctBody_eq_fail hexp
  rw [hmid, cafBody_eq]
  have hre : reqEntriesL r
      (mapErase fd (A.foldl (ctBody now) (s, [])).1.mConnectingInfos) = [] := by
    rw [reqEntriesL_mapErase, hAfold.2.1, mapErase_singleton_self]
  have hnoref : ∀ p ∈ mapErase fd (A.foldl (ctBody now) (s, [])).1.mConnectingInfos,
      refsReq r p.2 = false := by
    have h2 := List.filter_eq_nil_iff.mp hre
    intro p hp
    cases hr : refsReq r p.2
    · rfl
    · exact absurd hr (h2 p hp)
  refine ⟨?_, ?_, ?_⟩
  · intro p hp
    have hp2 := ct_fold_infos_sub now B _ p hp
    exact hnoref p hp2
  · rw [ct_fold_ev_noref r now B _ hfs.2]
    show evFilter r ((A.foldl (ctBody now) (s, [])).2 ++
      CEvent.closed (fd, ci).1 :: failedCBEvents (fd, ci).2.failedCB) = _
    rw [evFilter_append, hAfold.2.2.2.2]
    show [] ++ evFilter r (CEvent.closed fd :: failedCBEvents ci.failedCB) = _
    rw [hf, List.nil_append, evFilter_closed_failure]
  · intro hk
    rcases List.mem_map.mp hk with ⟨p, hp, hpx⟩
    have hp2 := ct_fold_infos_sub now B _ p hp
    exact (mem_mapErase.mp hp2).2 hpx

/- ------------------------------------------------------------------
   Conversions between the two no-reference formulations.
   ------------------------------------------------------------------ -/

theorem reqEntriesL_eq_nil_of_noref {r : Nat} {l : List (Nat × ConnectingInfo)}
    (h : ∀ p ∈ l, refsReq r p.2 = false) : reqEntriesL r l = [] := by
  apply List.filter_eq_nil_iff.mpr
  intro p hp
  rw [h p hp]
  simp

theorem noref_of_reqEntriesL_nil {r : Nat} {l : List (Nat × ConnectingInfo)}
    (h : reqEntriesL r l = []) : ∀ p ∈ l, refsReq r p.2 = false := by
  have h2 := List.filter_eq_nil_iff.mp h
  intro p hp
  cases hr : refsReq r p.2
  · rfl
  · exact absurd hr (h2 p hp)

/- ------------------------------------------------------------------
   Shutdown resolves a tracked pending request with exactly its
   failure callback.
   ------------------------------------------------------------------ -/

theorem causeAllFailed_pending_r (r : Nat) (s : ConnectorWorkInfo) (fd : Nat)
    (ci : ConnectingInfo) (hwf : WF s)
    (hq : reqEntriesL r s.mConnectingInfos = [(fd, ci)])
    (hf : ci.failedCB = some r) :
    (∀ p ∈ (causeAllFailed s).1.mConnectingInfos, refsReq r p.2 = false) ∧
    evFilter r (causeAllFailed s).2 = [CEvent.failure r] := by
  obtain ⟨n1, _, _, _, _, _, _⟩ := hwf
  have hmem : (fd, ci) ∈ s.mConnectingInfos := (refs_of_reqEntries_singleton hq).1
  have hlook : mapLookup fd s.mConnectingInfos = some ci :=
    mapLookup_of_mem_nodup hmem n1
  rcases List.append_of_mem hmem with ⟨A, B, hAB⟩
  have hks := nodup_keys_split (hAB ▸ n1)
  have hrq : refsReq r ci = true := (refs_of_reqEntries_singleton hq).2
  have hfs := filter_split_singleton (hAB ▸ hq) hrq
  unfold causeAllFailed
  rw [hAB, List.foldl_append, List.foldl_cons]
  have hAfold := caf_fold_track r fd ci A
    ((s : ConnectorWorkInfo), ([] : List CEvent)) hfs.1 hks.1 hlook hq
  rw [cafBody_eq]
  have hre : reqEntriesL r
      (mapErase fd (A.foldl cafBody (s, [])).1.mConnectingInfos) = [] := by
    rw [reqEntriesL_mapErase, hAfold.2.1, mapErase_singleton_self]
  have hnoref := noref_of_reqEntriesL_nil hre
  refine ⟨?_, ?_⟩
  · intro p hp
    exact hnoref p (caf_fold_infos_sub B _ p hp)
  · rw [caf_fold_ev_noref r B _ hfs.2]
    show evFilter r ((A.foldl cafBody (s, [])).2 ++
      CEvent.closed (fd, ci).1 :: failedCBEvents (fd, ci).2.failedCB) = _
    rw [evFilter_append, hAfold.2.2]
    show [] ++ evFilter r (CEvent.closed fd :: failedCBEvents ci.failedCB) = _
    rw [hf, List.nil_append, evFilter_closed_failure]

/- ------------------------------------------------------------------
   The timeout scan, entry by entry (used for claim C3).
   ------------------------------------------------------------------ -/

theorem checkTimeout_expired_entry (s : ConnectorWorkInfo) (now fd : Nat)
    (ci : ConnectingInfo) (cb : Nat)
    (hm : (fd, ci) ∈ s.mConnectingInfos) (hcb : ci.failedCB = some cb)
    (hexp : ¬(now - ci.startConnectTime < ci.timeout)) :
    fd ∉ (checkTimeout s now).1.mConnectingInfos.map Prod.fst ∧
    fd ∉ (checkTimeout s now).1.mConnectingFds ∧
    fd ∉ (checkTimeout s now).1.mFDSet ∧
    ∃ l1 l2, (checkTimeout s now).2 =
      l1 ++ CEvent.closed fd :: CEvent.failure cb :: l2 := by
  rcases List.append_of_mem hm with ⟨A, B, hAB⟩
  unfold checkTimeout
  rw [hAB, List.foldl_append, List.foldl_cons]
  have hmid : ctBody now (A.foldl (ctBody now) (s, [])) (fd, ci) =
      cafBody (A.foldl (ctBody now) (s, [])) (fd, ci) :=
    ctBody_eq_fail hexp
  rw [hmid, cafBody_eq]
  refine ⟨?_, ?_, ?_, ?_⟩
  · intro hk
    rcases List.mem_map.mp hk with ⟨p, hp, hpx⟩
    have hp2 := ct_fold_infos_sub now B _ p hp
    exact (mem_mapErase.mp hp2).2 hpx
  · intro hk
    have hk2 := ct_fold_fds_sub now B _ fd hk
    exact (mem_setErase.mp hk2).2 rfl
  · intro hk
    have hk2 := ct_fold_fdset_sub now B _ fd hk
    exact (mem_setErase.mp hk2).2 rfl
  · rcases ct_fold_ev_suffix now B
      (⟨⟨mapErase (fd, ci).1 (A.foldl (ctBody now) (s, [])).1.mConnectingInfos,
        setErase (fd, ci).1 (A.foldl (ctBody now) (s, [])).1.mConnectingFds,
        setErase (fd, ci).1 (A.foldl (ctBody now) (s, [])).1.mFDSet⟩,
       (A.foldl (ctBody now) (s, [])).2 ++
         CEvent.closed (fd, ci).1 :: failedCBEvents (fd, ci).2.failedCB⟩)
      with ⟨t, ht⟩
    refine ⟨(A.foldl (ctBody now) (s, [])).2, t, ?_⟩
    rw [ht]
    show ((A.foldl (ctBody now) (s, [])).2 ++
      CEvent.closed fd :: failedCBEvents ci.failedCB) ++ t = _
    rw [hcb]
    show ((A.foldl (ctBody now) (s, [])).2 ++
      CEvent.closed fd :: CEvent.failure cb :: []) ++ t = _
    simp [List.append_assoc]

theorem checkTimeout_kept_entry (s : ConnectorWorkInfo) (now fd : Nat)
    (ci : ConnectingInfo) (hwf : WF s)
    (hm : (fd, ci) ∈ s.mConnectingInfos)
    (hkeep : now - ci.startConnectTime < ci.timeout) :
    (fd, ci) ∈ (checkTimeout s now).1.mConnectingInfos ∧
    fd ∈ (checkTimeout s now).1.mConnectingFds ∧
    fd ∈ (checkTimeout s now).1.mFDSet ∧
    CEvent.closed fd ∉ (checkTimeout s now).2 := by
  obtain ⟨n1, _, _, _, w2, _, w4⟩ := hwf
  have hkey : fd ∈ s.mConnectingInfos.map Prod.fst :=
    List.mem_map.mpr ⟨(fd, ci), hm, rfl⟩
  have hkf : ∀ p ∈ s.mConnectingInfos, p.1 = fd →
      p = (fd, ci) ∧ now - ci.startConnectTime < ci.timeout :=
    fun p hp hpfd => ⟨keys_nodup_unique n1 hm p hp hpfd, hkeep⟩
  exact ct_fold_keepfd now fd ci s.mConnectingInfos (s, []) hkf hm
    (w2 fd hkey) (w4 fd hkey) (List.not_mem_nil _)

/- ------------------------------------------------------------------
   causeAllFailed empties the in-flight map and fails every entry
   (used for claim C5).
   ------------------------------------------------------------------ -/

theorem caf_fold_infos_nil :
    ∀ (l : List (Nat × ConnectingInfo)) (acc : ConnectorWorkInfo × List CEvent),
      (∀ p ∈ acc.1.mConnectingInfos, p.1 ∈ l.map Prod.fst) →
      (l.foldl cafBody acc).1.mConnectingInfos = [] := by
  intro l
  induction l with
  | nil =>
    intro acc h
    cases hi : acc.1.mConnectingInfos with
    | nil => exact hi
    | cons q qs =>
      have := h q (by rw [hi]; exact List.mem_cons_self q qs)
      simp at this
  | cons p ps ih =>
    intro acc h
    rw [List.foldl_cons]
    apply ih (cafBody acc p)
    intro q hq
    rw [cafBody_eq] at hq
    have hq2 : q ∈ mapErase p.1 acc.1.mConnectingInfos := hq
    rcases mem_mapErase.mp hq2 with ⟨hql, hqne⟩
    have := h q hql
    rw [List.map_cons] at this
    rcases List.mem_cons.mp this with h2 | h2
    · exact absurd h2 hqne
    · exact h2

theorem causeAllFailed_infos_nil (s : ConnectorWorkInfo) :
    (causeAllFailed s).1.mConnectingInfos = [] :=
  caf_fold_infos_nil s.mConnectingInfos (s, [])
    (fun p hp => List.mem_map.mpr ⟨p, hp, rfl⟩)

theorem causeAllFailed_events_mem (s : ConnectorWorkInfo) (fd : Nat)
    (ci : ConnectingInfo) (hm : (fd, ci) ∈ s.mConnectingInfos) :
    CEvent.closed fd ∈ (causeAllFailed s).2 ∧
    ∀ cb, ci.failedCB = some cb → CEvent.failure cb ∈ (causeAllFailed s).2 := by
  rcases List.append_of_mem hm with ⟨A, B, hAB⟩
  unfold causeAllFailed
  rw [hAB, List.foldl_append, List.foldl_cons, cafBody_eq]
  rcases caf_fold_ev_suffix B
    (⟨⟨mapErase (fd, ci).1 (A.foldl cafBody (s, [])).1.mConnectingInfos,
      setErase (fd, ci).1 (A.foldl cafBody (s, [])).1.mConnectingFds,
      setErase (fd, ci).1 (A.foldl cafBody (s, [])).1.mFDSet⟩,
     (A.foldl cafBody (s, [])).2 ++
       CEvent.closed (fd, ci).1 :: failedCBEvents (fd, ci).2.failedCB⟩)
    with ⟨t, ht⟩
  rw [ht]
  constructor
  · apply List.mem_append.mpr
    left
    apply List.mem_append.mpr
    right
    exact List.mem_cons_self _ _
  · intro cb hcb
    apply List.mem_append.mpr
    left
    apply List.mem_append.mpr
    right
    apply List.mem_cons_of_mem
    show CEvent.failure cb ∈ failedCBEvents ci.failedCB
    rw [hcb]
    exact List.mem_cons_self _ _

/- ------------------------------------------------------------------
   Step-level behaviour on a tracked pending request.
   ------------------------------------------------------------------ -/

theorem processConnect_pending (r fd : Nat) (ci : ConnectingInfo)
    (s : ConnectorWorkInfo) (addr : AsyncConnectAddr) (env : ProcEnv)
    (hq : reqEntriesL r s.mConnectingInfos = [(fd, ci)])
    (ha : stepAvoids r (WStep.process addr env) = true)
    (hfr : stepFresh s (WStep.process addr env) = true) :
    reqEntriesL r (processConnect s addr env).1.mConnectingInfos = [(fd, ci)] ∧
    evFilter r (processConnect s addr env).2 = [] := by
  rcases stepAvoids_elim ha with ⟨hs, hf⟩
  unfold processConnect
  cases hfd : env.createdFd with
  | none => exact ⟨hq, evFilter_failedCBEvents_noref hf⟩
  | some clientfd =>
    cases env.connectResult with
    | connected => exact ⟨hq, evFilter_successCBEvents_noref hs⟩
    | otherError =>
      refine ⟨hq, ?_⟩
      have e1 : evFilter r (CEvent.closed clientfd :: failedCBEvents addr.failedCB) =
          evFilter r [CEvent.closed clientfd] ++
            evFilter r (failedCBEvents addr.failedCB) := by
        rw [← evFilter_append]
        rfl
      rw [e1, evFilter_failedCBEvents_noref hf]
      rfl
    | inProgress =>
      refine ⟨?_, rfl⟩
      have hnk : clientfd ∉ s.mConnectingInfos.map Prod.fst :=
        stepFresh_process_elim hfr hfd
      have hq2 : refsReq r
          (⟨env.now, addr.timeout, addr.successCB, addr.failedCB⟩ : ConnectingInfo)
          = false := by
        unfold refsReq
        simp only [hs, hf]
        rfl
      show reqEntriesL r (mapInsert clientfd _ s.mConnectingInfos) = [(fd, ci)]
      unfold reqEntriesL
      rw [filter_mapInsert_of_not hnk hq2]
      exact hq

theorem runOnce_pending (r : Nat) (s : ConnectorWorkInfo) (env : LoopEnv)
    (fd : Nat) (ci : ConnectingInfo) (hwf : WF s)
    (hq : reqEntriesL r s.mConnectingInfos = [(fd, ci)])
    (hs : ci.successCB = some r) (hf : ci.failedCB = some r) :
    (reqEntriesL r (runOnceCheckConnect s env).1.mConnectingInfos = [(fd, ci)] ∧
     evFilter r (runOnceCheckConnect s env).2 = [] ∧
     env.now - ci.startConnectTime < ci.timeout) ∨
    ((∀ p ∈ (runOnceCheckConnect s env).1.mConnectingInfos,
        refsReq r p.2 = false) ∧
     (evFilter r (runOnceCheckConnect s env).2).length = 1) := by
  unfold runOnceCheckConnect
  cases hr : fdsetCheck s.mFDSet env.ready fd with
  | true =>
    right
    have hres := checkConnectStatus_resolve r s env.ready env.soError fd ci
      hwf hq hs hf hr
    have h2 := checkTimeout_noref r
      (checkConnectStatus s env.ready env.soError).1 env.now hres.1
    refine ⟨h2.1, ?_⟩
    rw [evFilter_append, hres.2.1, h2.2]
    by_cases hso : env.soError fd = some 0 <;> simp [hso]
  | false =>
    have hkp := checkConnectStatus_keep r s env.ready env.soError fd ci hwf hq hr
    have hwf1 := WF_checkConnectStatus s env.ready env.soError hwf
    by_cases hc : env.now - ci.startConnectTime < ci.timeout
    · left
      have hk := checkTimeout_keep_r r
        (checkConnectStatus s env.ready env.soError).1 env.now fd ci hwf1
        hkp.2.1 hc
      refine ⟨hk.2.1, ?_, hc⟩
      rw [evFilter_append, hkp.2.2.2.2, hk.2.2.2.2]
      rfl
    · right
      have he := checkTimeout_expire_r r
        (checkConnectStatus s env.ready env.soError).1 env.now fd ci hwf1
        hkp.2.1 hf hc
      refine ⟨he.1, ?_⟩
      rw [evFilter_append, hkp.2.2.2.2, he.2.1]
      rfl

theorem processConnect_start (r : Nat) (s : ConnectorWorkInfo)
    (addr : AsyncConnectAddr) (env : ProcEnv)
    (hnore : ∀ p ∈ s.mConnectingInfos, refsReq r p.2 = false)
    (hs : addr.successCB = some r) (hf : addr.failedCB = some r)
    (hfr : stepFresh s (WStep.process addr env) = true) :
    ((∀ p ∈ (processConnect s addr env).1.mConnectingInfos,
        refsReq r p.2 = false) ∧
     (evFilter r (processConnect s addr env).2).length = 1) ∨
    (∃ fd2 ci2,
      reqEntriesL r (processConnect s addr env).1.mConnectingInfos = [(fd2, ci2)] ∧
      ci2.successCB = some r ∧ ci2.failedCB = some r ∧
      evFilter r (processConnect s addr env).2 = []) := by
  unfold processConnect
  cases hfd : env.createdFd with
  | none =>
    left
    refine ⟨hnore, ?_⟩
    rw [hf]
    simp [failedCBEvents, evFilter, List.filter_cons, evFor_failure]
  | some clientfd =>
    cases env.connectResult with
    | connected =>
      left
      refine ⟨hnore, ?_⟩
      rw [hs]
      simp [successCBEvents, evFilter, List.filter_cons, evFor_success]
    | otherError =>
      left
      refine ⟨hnore, ?_⟩
      rw [hf]
      simp [failedCBEvents, evFilter, List.filter_cons, evFor_failure,
        evFor_closed]
    | inProgress =>
      right
      refine ⟨clientfd,
        ⟨env.now, addr.timeout, addr.successCB, addr.failedCB⟩, ?_, hs, hf, rfl⟩
      have hnk : clientfd ∉ s.mConnectingInfos.map Prod.fst :=
        stepFresh_process_elim hfr hfd
      have hnl : reqEntriesL r s.mConnectingInfos = [] :=
        reqEntriesL_eq_nil_of_noref hnore
      have hqt : refsReq r
          (⟨env.now, addr.timeout, addr.successCB, addr.failedCB⟩ : ConnectingInfo)
          = true := by
        unfold refsReq
        rw [hs]
        simp
      show reqEntriesL r (mapInsert clientfd _ s.mConnectingInfos) = _
      unfold reqEntriesL
      unfold reqEntriesL at hnl
      rw [filter_mapInsert_of_filter_nil hnl, if_pos hqt]

/- ------------------------------------------------------------------
   The run-level induction: once pending, a tracked request fires
   exactly one callback by the time the run reaches a shutdown step.
   ------------------------------------------------------------------ -/

theorem run_pending (r fd : Nat) (ci : ConnectingInfo) :
    ∀ (l : List WStep) (s : ConnectorWorkInfo),
      WF s →
      reqEntriesL r s.mConnectingInfos = [(fd, ci)] →
      ci.successCB = some r → ci.failedCB = some r →
      (∀ st ∈ l, stepAvoids r st = true) →
      freshRun s l = true →
      WStep.shutdown ∈ l →
      (evFilter r (runSteps s l).2).length = 1 := by
  intro l
  induction l with
  | nil =>
    intro s _ _ _ _ _ _ hsh
    cases hsh
  | cons st rest ih =>
    intro s hwf hq hs hf ha hfr hsh
    rw [freshRun_cons] at hfr
    rcases Bool.and_eq_true_iff.mp hfr with ⟨hfr1, hfr2⟩
    rw [runSteps_cons, evFilter_append, List.length_append]
    cases st with
    | shutdown =>
      have hres := causeAllFailed_pending_r r s fd ci hwf hq hf
      have hrest := run_noref r rest (causeAllFailed s).1 hres.1
        (fun x hx => ha x (List.mem_cons_of_mem _ hx))
      show (evFilter r (causeAllFailed s).2).length +
        (evFilter r (runSteps (causeAllFailed s).1 rest).2).length = 1
      rw [hres.2, hrest.2]
      rfl
    | process addr penv =>
      have hp := processConnect_pending r fd ci s addr penv hq
        (ha _ (List.mem_cons_self _ _)) hfr1
      have hsh2 : WStep.shutdown ∈ rest := by
        rcases List.mem_cons.mp hsh with h | h
        · exact WStep.noConfusion h
        · exact h
      have hrec := ih (stepRun s (WStep.process addr penv)).1
        (WF_stepRun s _ hwf hfr1) hp.1 hs hf
        (fun x hx => ha x (List.mem_cons_of_mem _ hx)) hfr2 hsh2
      show (evFilter r (processConnect s addr penv).2).length + _ = 1
      rw [hp.2]
      simpa using hrec
    | runOnce env =>
      rcases runOnce_pending r s env fd ci hwf hq hs hf with
        ⟨hq2, hev, _⟩ | ⟨hnoref, hlen⟩
      · have hsh2 : WStep.shutdown ∈ rest := by
          rcases List.mem_cons.mp hsh with h | h
          · exact WStep.noConfusion h
          · exact h
        have hrec := ih (stepRun s (WStep.runOnce env)).1
          (WF_stepRun s _ hwf hfr1) hq2 hs hf
          (fun x hx => ha x (List.mem_cons_of_mem _ hx)) hfr2 hsh2
        show (evFilter r (runOnceCheckConnect s env).2).length + _ = 1
        rw [hev]
        simpa using hrec
      · have hrest := run_noref r rest (stepRun s (WStep.runOnce env)).1 hnoref
          (fun x hx => ha x (List.mem_cons_of_mem _ hx))
        show (evFilter r (runOnceCheckConnect s env).2).length +
          (evFilter r (runSteps (stepRun s (WStep.runOnce env)).1 rest).2).length = 1
        rw [hrest.2, hlen]
        rfl

/- ==================================================================
   Claim theorems.
   ================================================================== -/

/-- Claim C1: for every connect request processed by the AsyncConnector
worker — identified by its callback pair r, with both callbacks present,
with every other step of the run avoiding r and the OS handing out fresh
fds — exactly one of on_success and on_failure is invoked, and it is
invoked exactly once, over any worker run that reaches shutdown:
synchronous connect, socket-creation or connect failure, write-readiness
with SO_ERROR zero or non-zero, deadline expiry, and still-pending at
shutdown are all covered by the run's step alternatives. -/
theorem connector_callback_exactly_once
    (r : Nat) (addr : AsyncConnectAddr) (penv : ProcEnv)
    (pre post : List WStep)
    (hs : addr.successCB = some r) (hf : addr.failedCB = some r)
    (hpre : ∀ st ∈ pre, stepAvoids r st = true)
    (hpost : ∀ st ∈ post, stepAvoids r st = true)
    (hfresh : freshRun initialWork
      (pre ++ WStep.process addr penv :: post) = true)
    (hshut : WStep.shutdown ∈ post) :
    (runSteps initialWork (pre ++ WStep.process addr penv :: post)).2.countP
        (isSuccessFor r) +
      (runSteps initialWork (pre ++ WStep.process addr penv :: post)).2.countP
        (isFailureFor r) = 1 := by
  rw [count_split_evFor]
  have hnoref0 : ∀ p ∈ initialWork.mConnectingInfos, refsReq r p.2 = false := by
    intro p hp
    cases hp
  rw [freshRun_append] at hfresh
  rcases Bool.and_eq_true_iff.mp hfresh with ⟨hfrPre, hfrRest⟩
  rw [freshRun_cons] at hfrRest
  rcases Bool.and_eq_true_iff.mp hfrRest with ⟨hfrProc, hfrPost⟩
  have hpreRun := run_noref r pre initialWork hnoref0 hpre
  have hwf1 : WF (runSteps initialWork pre).1 :=
    WF_runSteps pre initialWork WF_initialWork hfrPre
  rw [runSteps_append_snd, runSteps_cons_snd, evFilter_append, evFilter_append,
    List.length_append, List.length_append, hpreRun.2]
  rcases processConnect_start r (runSteps initialWork pre).1 addr penv
      hpreRun.1 hs hf hfrProc with hres | ⟨fd2, ci2, hq2, hs2, hf2, hev2⟩
  · have hpost2 := run_noref r post
      (stepRun (runSteps initialWork pre).1 (WStep.process addr penv)).1
      hres.1 hpost
    show ([] : List CEvent).length +
      ((evFilter r (processConnect (runSteps initialWork pre).1 addr penv).2).length +
        (evFilter r (runSteps
          (stepRun (runSteps initialWork pre).1 (WStep.process addr penv)).1
          post).2).length) = 1
    rw [hres.2, hpost2.2]
    rfl
  · have hrun := run_pending r fd2 ci2 post
      (stepRun (runSteps initialWork pre).1 (WStep.process addr penv)).1
      (WF_stepRun _ _ hwf1 hfrProc) hq2 hs2 hf2 hpost hfrPost hshut
    show ([] : List CEvent).length +
      ((evFilter r (processConnect (runSteps initialWork pre).1 addr penv).2).length +
        (evFilter r (runSteps
          (stepRun (runSteps initialWork pre).1 (WStep.process addr penv)).1
          post).2).length) = 1
    rw [hev2, hrun]
    rfl

/-- Claim C1 witness: a concrete request that goes in-progress and is
then failed at shutdown fires exactly one callback. -/
theorem connector_callback_exactly_once_witness :
    (runSteps initialWork
      [WStep.process ⟨"10.1.2.3", 80, 50, some 7, some 7⟩
        ⟨some 3, ConnectOutcome.inProgress, 0⟩, WStep.shutdown]).2.countP
        (isSuccessFor 7) +
      (runSteps initialWork
        [WStep.process ⟨"10.1.2.3", 80, 50, some 7, some 7⟩
          ⟨some 3, ConnectOutcome.inProgress, 0⟩, WStep.shutdown]).2.countP
        (isFailureFor 7) = 1 :=
  connector_callback_exactly_once 7
    ⟨"10.1.2.3", 80, 50, some 7, some 7⟩ ⟨some 3, ConnectOutcome.inProgress, 0⟩
    [] [WStep.shutdown] rfl rfl
    (by intro st hst; cases hst)
    (by intro st hst; rw [List.mem_singleton] at hst; subst hst; rfl)
    (by decide)
    (List.mem_singleton.mpr rfl)

/-- Claim C2: processConnect follows exactly the specified steps: on
socket-creation failure it invokes on_failure and stops; on synchronous
connect it invokes on_success with the new socket and stops; on
in-progress it records the attempt (startConnectTime = now and the
request timeout, so the deadline is now + timeout) and registers the fd
for Write interest, invoking neither callback; on any other connect
error it closes the socket and invokes on_failure. -/
theorem connector_processConnect_steps (s : ConnectorWorkInfo)
    (addr : AsyncConnectAddr) (env : ProcEnv) (sr fr : Nat)
    (hs : addr.successCB = some sr) (hf : addr.failedCB = some fr) :
    (env.createdFd = none →
      processConnect s addr env = (s, [CEvent.failure fr])) ∧
    (∀ fd, env.createdFd = some fd →
      env.connectResult = ConnectOutcome.connected →
      processConnect s addr env = (s, [CEvent.success sr fd])) ∧
    (∀ fd, env.createdFd = some fd →
      env.connectResult = ConnectOutcome.inProgress →
      (processConnect s addr env).2 = [] ∧
      mapLookup fd (processConnect s addr env).1.mConnectingInfos =
        some ⟨env.now, addr.timeout, some sr, some fr⟩ ∧
      fd ∈ (processConnect s addr env).1.mConnectingFds ∧
      fd ∈ (processConnect s addr env).1.mFDSet) ∧
    (∀ fd, env.createdFd = some fd →
      env.connectResult = ConnectOutcome.otherError →
      processConnect s addr env = (s, [CEvent.closed fd, CEvent.failure fr])) := by
  refine ⟨?_, ?_, ?_, ?_⟩
  · intro hfd
    unfold processConnect
    rw [hfd, hf]
    rfl
  · intro fd hfd hcr
    unfold processConnect
    rw [hfd, hcr, hs]
    rfl
  · intro fd hfd hcr
    unfold processConnect
    rw [hfd, hcr]
    refine ⟨rfl, ?_, ?_, ?_⟩
    · show mapLookup fd (mapInsert fd
        ⟨env.now, addr.timeout, addr.successCB, addr.failedCB⟩
        s.mConnectingInfos) = _
      rw [mapLookup_mapInsert_self, hs, hf]
    · exact mem_setInsert.mpr (Or.inl rfl)
    · exact mem_setInsert.mpr (Or.inl rfl)
  · intro fd hfd hcr
    unfold processConnect
    rw [hfd, hcr, hf]
    rfl

/-- Claim C2 witness: the socket-creation-failure step at a concrete
input. -/
theorem connector_processConnect_steps_witness :
    processConnect initialWork ⟨"10.1.2.3", 80, 50, some 7, some 8⟩
      ⟨none, ConnectOutcome.connected, 0⟩ = (initialWork, [CEvent.failure 8]) :=
  (connector_processConnect_steps initialWork
    ⟨"10.1.2.3", 80, 50, some 7, some 8⟩
    ⟨none, ConnectOutcome.connected, 0⟩ 7 8 rfl rfl).1 rfl

/-- Claim C3 counterexample: a request with timeout 0 ns that does not
complete synchronously (its processConnect step emits no event) can be
resolved by the readiness check of the first iteration: the whole trace
is one success event and contains no failure, so the request is neither
completed in processConnect nor failed in the first timeout scan,
contradicting the claim's final sentence. -/
theorem connector_timeout0_readiness_cex :
    (runSteps initialWork
      [WStep.process ⟨"10.1.2.3", 80, 0, some 7, some 7⟩
        ⟨some 3, ConnectOutcome.inProgress, 100⟩,
       WStep.runOnce ⟨fun fd => fd == 3, fun _ => some 0, 200⟩]).2 =
      [CEvent.success 7 3] ∧
    (processConnect initialWork ⟨"10.1.2.3", 80, 0, some 7, some 7⟩
      ⟨some 3, ConnectOutcome.inProgress, 100⟩).2 = [] := by
  decide

/-- Claim C3 (amended): in each timeout scan a pending attempt has its
fd deregistered, its socket closed, and then its on_failure invoked if
and only if the elapsed time since the connect started is at least its
timeout; attempts with time remaining are left pending and unchanged,
their sockets not closed. For a timeout of 0 nanoseconds, a request
either completes synchronously in processConnect or is resolved —
exactly one callback fires — by the first worker iteration after it was
registered, whether by the readiness check or by the timeout scan. -/
theorem connector_timeout_scan (s : ConnectorWorkInfo) (now fd : Nat)
    (ci : ConnectingInfo) (cb : Nat) (hwf : WF s)
    (hm : (fd, ci) ∈ s.mConnectingInfos) (hcb : ci.failedCB = some cb) :
    (ci.timeout ≤ now - ci.startConnectTime →
      fd ∉ (checkTimeout s now).1.mConnectingInfos.map Prod.fst ∧
      fd ∉ (checkTimeout s now).1.mConnectingFds ∧
      fd ∉ (checkTimeout s now).1.mFDSet ∧
      ∃ l1 l2, (checkTimeout s now).2 =
        l1 ++ CEvent.closed fd :: CEvent.failure cb :: l2) ∧
    (now - ci.startConnectTime < ci.timeout →
      (fd, ci) ∈ (checkTimeout s now).1.mConnectingInfos ∧
      fd ∈ (checkTimeout s now).1.mConnectingFds ∧
      fd ∈ (checkTimeout s now).1.mFDSet ∧
      CEvent.closed fd ∉ (checkTimeout s now).2) ∧
    (∀ (env : LoopEnv) (r : Nat),
      reqEntriesL r s.mConnectingInfos = [(fd, ci)] →
      ci.successCB = some r → ci.failedCB = some r →
      ci.timeout = 0 →
      (evFilter r (runOnceCheckConnect s env).2).length = 1) := by
  refine ⟨?_, ?_, ?_⟩
  · intro hexp
    exact checkTimeout_expired_entry s now fd ci cb hm hcb
      (by omega)
  · intro hkeep
    exact checkTimeout_kept_entry s now fd ci hwf hm hkeep
  · intro env r hq hsr hfr ht0
    rcases runOnce_pending r s env fd ci hwf hq hsr hfr with
      ⟨_, _, hc⟩ | ⟨_, hlen⟩
    · rw [ht0] at hc
      omega
    · exact hlen

/-- Claim C3 witness: a concrete attempt with time remaining survives
the timeout scan unchanged. -/
theorem connector_timeout_scan_witness :
    ((5 : Nat), (⟨0, 50, some 7, some 7⟩ : ConnectingInfo)) ∈
      (checkTimeout ⟨[(5, ⟨0, 50, some 7, some 7⟩)], [5], [5]⟩
        10).1.mConnectingInfos :=
  ((connector_timeout_scan ⟨[(5, ⟨0, 50, some 7, some 7⟩)], [5], [5]⟩ 10 5
    ⟨0, 50, some 7, some 7⟩ 7 (by decide) (by decide) rfl).2.1
    (by decide)).1

/-- Claim C4: within a worker iteration, write-readiness processing
(checkConnectStatus) runs before the deadline scan (checkTimeout); if a
pending fd is Write-ready and also past its deadline in the same
iteration, readiness wins: the request's only callback of the iteration
is on_success when SO_ERROR reads as 0, and on_failure exactly when
SO_ERROR is non-zero or getsockopt fails. -/
theorem connector_readiness_wins (s : ConnectorWorkInfo) (env : LoopEnv)
    (r fd : Nat) (ci : ConnectingInfo) (hwf : WF s)
    (hq : reqEntriesL r s.mConnectingInfos = [(fd, ci)])
    (hs : ci.successCB = some r) (hf : ci.failedCB = some r)
    (hready : env.ready fd = true)
    (_hdead : ci.timeout ≤ env.now - ci.startConnectTime) :
    evFilter r (runOnceCheckConnect s env).2 =
      (if env.soError fd = some 0 then [CEvent.success r fd]
       else [CEvent.failure r]) := by
  have hfdset : fd ∈ s.mFDSet := by
    obtain ⟨n1, _, _, _, _, _, w4⟩ := hwf
    exact w4 fd (List.mem_map.mpr
      ⟨(fd, ci), (refs_of_reqEntries_singleton hq).1, rfl⟩)
  have hready2 : fdsetCheck s.mFDSet env.ready fd = true := by
    unfold fdsetCheck
    rw [contains_eq_true_iff.mpr hfdset, hready]
    rfl
  have hres := checkConnectStatus_resolve r s env.ready env.soError fd ci
    hwf hq hs hf hready2
  have h2 := checkTimeout_noref r
    (checkConnectStatus s env.ready env.soError).1 env.now hres.1
  show evFilter r ((checkConnectStatus s env.ready env.soError).2 ++
    (checkTimeout (checkConnectStatus s env.ready env.soError).1 env.now).2) = _
  rw [evFilter_append, hres.2.1, h2.2, List.append_nil]

/-- Claim C4 witness: a ready fd with SO_ERROR 0 past its deadline gets
on_success, not the timeout failure. -/
theorem connector_readiness_wins_witness :
    evFilter 7 (runOnceCheckConnect ⟨[(3, ⟨0, 50, some 7, some 7⟩)], [3], [3]⟩
      ⟨fun fd => fd == 3, fun _ => some 0, 100⟩).2 = [CEvent.success 7 3] := by
  have h := connector_readiness_wins ⟨[(3, ⟨0, 50, some 7, some 7⟩)], [3], [3]⟩
    ⟨fun fd => fd == 3, fun _ => some 0, 100⟩ 7 3 ⟨0, 50, some 7, some 7⟩
    (by decide) rfl rfl rfl rfl (by decide)
  simpa using h

/-- Claim C5: the shutdown pass (causeAllFailed, which the worker thread
runs after its loop exits and before stopWorkerThread's join returns)
closes the fd of every request still pending and invokes its on_failure,
and leaves no entry — hence no outstanding callback — in the in-flight
map. -/
theorem connector_shutdown_fails_all (s : ConnectorWorkInfo) :
    (causeAllFailed s).1.mConnectingInfos = [] ∧
    ∀ fd ci, (fd, ci) ∈ s.mConnectingInfos →
      CEvent.closed fd ∈ (causeAllFailed s).2 ∧
      ∀ cb, ci.failedCB = some cb →
        CEvent.failure cb ∈ (causeAllFailed s).2 :=
  ⟨causeAllFailed_infos_nil s,
   fun fd ci hm => causeAllFailed_events_mem s fd ci hm⟩

/-- Claim C5 witness: a concrete pending entry is failed at shutdown. -/
theorem connector_shutdown_fails_all_witness :
    CEvent.failure 9 ∈
      (causeAllFailed ⟨[(4, ⟨0, 50, some 9, some 9⟩)], [4], [4]⟩).2 :=
  ((connector_shutdown_fails_all
    ⟨[(4, ⟨0, 50, some 9, some 9⟩)], [4], [4]⟩).2 4
    ⟨0, 50, some 9, some 9⟩ (by decide)).2 9 rfl

/-- Claim C6 (code-bug evidence): before the first start, asyncConnect
does throw the "work thread already stop" error, but after a successful
start followed by stopWorkerThread, mIsRun has been reset to nullptr
(Connector.cpp:377) and asyncConnect dereferences it
(Connector.cpp:398) — undefined behaviour, not the specified synchronous
"connector stopped" error. The null-callback check still throws first in
every state. -/
theorem asyncConnect_after_stop_nullderef :
    (AsyncConnector.construct.startWorkerThread.1.stopWorkerThread).mIsRun
      = none ∧
    AsyncConnector.asyncConnect
      AsyncConnector.construct.startWorkerThread.1.stopWorkerThread
      "127.0.0.1" 80 1000 (some 0) (some 1) = AsyncConnectResult.nullDeref ∧
    AsyncConnector.asyncConnect AsyncConnector.construct
      "127.0.0.1" 80 1000 (some 0) (some 1) =
      AsyncConnectResult.thrownStopped ∧
    AsyncConnector.asyncConnect
      AsyncConnector.construct.startWorkerThread.1.stopWorkerThread
      "127.0.0.1" 80 1000 none (some 1) =
      AsyncConnectResult.thrownNullCallback := by
  decide

/-- Claim C7 (code-bug evidence): processConnect binds the inet_pton
parse of the ip literal but never branches on it (Connector.cpp:259
ignores the return value), so a request whose literal is not a valid
numeric IPv4 address still proceeds to connect: it can succeed with
on_success invoked, or be registered as a pending attempt — on_failure
is not invoked and the failure path does not run. -/
theorem processConnect_ignores_invalid_ip :
    inet_pton4 "299.299.299.299" = none ∧
    processConnect initialWork ⟨"299.299.299.299", 80, 1000, some 7, some 8⟩
      ⟨some 3, ConnectOutcome.connected, 0⟩ =
      (initialWork, [CEvent.success 7 3]) ∧
    (processConnect initialWork ⟨"299.299.299.299", 80, 1000, some 7, some 8⟩
      ⟨some 3, ConnectOutcome.inProgress, 0⟩).2 = [] ∧
    mapLookup 3 (processConnect initialWork
      ⟨"299.299.299.299", 80, 1000, some 7, some 8⟩
      ⟨some 3, ConnectOutcome.inProgress, 0⟩).1.mConnectingInfos =
      some ⟨0, 1000, some 7, some 8⟩ := by
  decide

/-- Claim C8 counterexample: a second startWorkerThread on a started
connector returns normally with its state unchanged and no error —
Connector.cpp:325-328 simply returns early, so the call is silently
ignored rather than surfaced as a usage error. -/
theorem startWorkerThread_double_silent :
    AsyncConnector.construct.startWorkerThread.1.startWorkerThread =
      (AsyncConnector.construct.startWorkerThread.1,
       StartOutcome.ignoredAlreadyStarted) := by
  decide

/-- Claim C8 (amended): calling startWorkerThread on an already-started
AsyncConnector is silently ignored — it returns normally without
surfacing any error and leaves the running worker's state unchanged. -/
theorem startWorkerThread_already_started (c : AsyncConnector)
    (h : c.mThread.isSome = true) :
    c.startWorkerThread = (c, StartOutcome.ignoredAlreadyStarted) := by
  unfold AsyncConnector.startWorkerThread
  rw [if_pos h]

/-- Claim C8 witness: the amended statement at the concrete
started-twice connector. -/
theorem startWorkerThread_already_started_witness :
    (AsyncConnector.mk (some ()) (some true)).startWorkerThread =
      (AsyncConnector.mk (some ()) (some true),
       StartOutcome.ignoredAlreadyStarted) :=
  startWorkerThread_already_started ⟨some (), some true⟩ (by decide)

/-- Claim C9: when the backend connect completion runs, if the frontend
session's user-data slot holds -1 the backend session is immediately
post-disconnected and no cached packet is sent; otherwise the backend
reference is published, every cached packet is sent to the backend in
original arrival order, and the cache is emptied — after which frontend
data goes directly to the backend, so no packet is ever sent twice. -/
theorem proxy_backend_enter (st : ProxySessionState) (b : Nat) :
    (st.ud = -1 →
      backendEnterCallback st b = (st, [ProxyAction.postDisConnect b])) ∧
    (st.ud ≠ -1 →
      (backendEnterCallback st b).1.shareBackendSession = some b ∧
      (backendEnterCallback st b).1.cachePacket = [] ∧
      (backendEnterCallback st b).2 =
        st.cachePacket.map (fun p => ProxyAction.sendToBackend b p) ∧
      ∀ buf, frontDataCallback (backendEnterCallback st b).1 buf =
        ((backendEnterCallback st b).1, [ProxyAction.sendToBackend b buf])) := by
  constructor
  · intro h
    unfold backendEnterCallback
    rw [if_pos h]
  · intro h
    unfold backendEnterCallback
    rw [if_neg h]
    refine ⟨rfl, rfl, rfl, ?_⟩
    intro buf
    rfl

/-- Claim C9 witness: the frontend-already-closed short-circuit at a
concrete state. -/
theorem proxy_backend_enter_witness :
    backendEnterCallback ⟨-1, none, [[1, 2]]⟩ 5 =
      (⟨-1, none, [[1, 2]]⟩, [ProxyAction.postDisConnect 5]) :=
  (proxy_backend_enter ⟨-1, none, [[1, 2]]⟩ 5).1 rfl

/-- Claim C10: initSSL is atomic with respect to its context: a false
return leaves the context exactly as it was before the call (the
already-initialised and empty-path refusals change nothing, and each of
the three load/validation failures frees the fresh context back to
null, which is what the context was on entry to those branches), and a
true return — which happens exactly when the context was null, both
paths are non-empty, and all three OpenSSL steps succeed — leaves a
non-null, fully validated context. -/
theorem sslhelper_initSSL_atomic (h : SSLHelper) (env : SSLEnv)
    (certificate privatekey : String) :
    ((h.initSSL env certificate privatekey).2 = false →
      (h.initSSL env certificate privatekey).1 = h) ∧
    ((h.initSSL env certificate privatekey).2 = true →
      (h.initSSL env certificate privatekey).1.mOpenSSLCTX = some env.newCtx) ∧
    ((h.initSSL env certificate privatekey).2 = true ↔
      (h.mOpenSSLCTX = none ∧ certificate.isEmpty = false ∧
       privatekey.isEmpty = false ∧ env.certChainOk = true ∧
       env.privateKeyOk = true ∧ env.checkKeyOk = true)) := by
  obtain ⟨ctx⟩ := h
  unfold SSLHelper.initSSL
  cases ctx with
  | some c => simp
  | none =>
    by_cases hce : certificate.isEmpty <;>
      by_cases hke : privatekey.isEmpty <;>
      by_cases h1 : env.certChainOk <;>
      by_cases h2 : env.privateKeyOk <;>
      by_cases h3 : env.checkKeyOk <;>
      simp [hce, hke, h1, h2, h3]

/-- Claim C10 witness: a fully successful initSSL on a null context
yields the freshly built context. -/
theorem sslhelper_initSSL_atomic_witness :
    (SSLHelper.initSSL ⟨none⟩ ⟨5, true, true, true⟩ "c.pem" "k.pem").1.mOpenSSLCTX
      = some 5 :=
  (sslhelper_initSSL_atomic ⟨none⟩ ⟨5, true, true, true⟩ "c.pem" "k.pem").2.1
    (by decide)

end Brynet
